import Mathlib

/-!
Verification of the Sustainity dashboard's tabular data pipeline.

The development shallowly embeds the data-processing core of the repository:

* the record sanitizers of the table fetch path (DataTable, `fetchData`),
  the chart path (ChartView, `chartData`) and the export path
  (index.tsx, `handleExport`);
* the chart summary (`chartData`: `numericKeys` and the per-column series);
* the table view derivations `filteredData` and `sortedData`;
* the export handler `handleExport` of the main page.

JavaScript runtime values appearing in parsed records are modelled by
`JSValue`.  Numbers are modelled as rationals (the embedding has no NaN or
Infinity values), containers are modelled to one level of nesting, and the
external builtins (`Number(...)` string parsing, `String(...)` coercion,
`JSON.stringify`, `localeCompare`, `Array.prototype.sort`) are given
executable models whose behaviour on the relevant inputs follows the
ECMAScript semantics: string-to-number parsing accepts exactly the fully
numeric decimal strings (empty and whitespace-only strings denote 0),
`localeCompare` is modelled as a three-way lexicographic comparison, and
the sort is modelled as a stable insertion sort (ECMAScript requires the
sort to be stable; for comparators that are not consistent the standard
leaves the order implementation-defined, and the stable model makes that
case concrete).
-/

namespace Sustainity

/-- Primitive JavaScript values, plus opaque function values (`typeof`
yields `"function"` for those, so the sanitizers treat them like
primitives).  `func` carries an identity tag only. -/
inductive JSPrim where
  | null : JSPrim
  | undefined : JSPrim
  | bool : Bool → JSPrim
  | num : ℚ → JSPrim
  | str : String → JSPrim
  | func : Nat → JSPrim
deriving DecidableEq, Repr

/-- JavaScript values as they can occur in a parsed record: a primitive,
an array, a plain object (a list of string-keyed fields) or a `Date`
object.  `date none` models an Invalid Date (its timestamp is NaN).
Containers hold primitives; one nesting level is enough for every
behaviour the pipeline exercises. -/
inductive JSValue where
  | prim : JSPrim → JSValue
  | arr : List JSPrim → JSValue
  | obj : List (String × JSPrim) → JSValue
  | date : Option Int → JSValue
deriving DecidableEq, Repr

namespace JSValue

/-- `value && typeof value === 'object'`: the truthy values of object
type.  `prim .null` has object type but is falsy; functions have type
`"function"`. -/
def isTruthyObject : JSValue → Bool
  | .prim _ => false
  | .arr _ => true
  | .obj _ => true
  | .date _ => true

/-- `'$$typeof' in value`: whether the object carries the rendered-UI
element marker.  Arrays and dates have no such property. -/
def hasMarker : JSValue → Bool
  | .obj fields => fields.any (fun kv => kv.1 = "$$typeof")
  | _ => false

/-- `aVal == null || aVal === undefined` (the loose equality already
covers `undefined`). -/
def isNullish : JSValue → Bool
  | .prim .null => true
  | .prim .undefined => true
  | _ => false

end JSValue

/-! ### Models of the external string builtins -/

/-- Whitespace accepted (and trimmed) by `Number(string)`. -/
def isJsSpace (c : Char) : Bool :=
  c = ' ' || c = '\t' || c = '\n' || c = '\r'

/-- Digit list to a natural number value. -/
def digitsToNat (cs : List Char) : Nat :=
  cs.foldl (fun acc c => 10 * acc + (c.toNat - '0'.toNat)) 0

/-- Parse an unsigned decimal literal: digits, an optional single dot,
more digits; at least one digit overall.  Models the numeric core of the
`Number(string)` builtin (the exotic forms - exponents, hex, Infinity -
are outside the model). -/
def parseDecimal (cs : List Char) : Option ℚ :=
  let intPart := cs.takeWhile Char.isDigit
  let rest := cs.dropWhile Char.isDigit
  match rest with
  | [] => if intPart.isEmpty then none else some (digitsToNat intPart : ℚ)
  | c :: frac =>
      if c = '.' then
        if frac.all Char.isDigit && !(intPart.isEmpty && frac.isEmpty) then
          some ((digitsToNat intPart : ℚ) + (digitsToNat frac : ℚ) / ((10 : ℚ) ^ frac.length))
        else none
      else none

/-- Strip an optional sign and parse the remainder. -/
def parseSigned (cs : List Char) : Option ℚ :=
  match cs with
  | [] => parseDecimal []
  | c :: rest =>
      if c = '+' then parseDecimal rest
      else if c = '-' then (parseDecimal rest).map (fun q => -q)
      else parseDecimal (c :: rest)

/-- Model of `Number(string)`: `none` when the result is NaN, `some q`
otherwise.  Leading and trailing whitespace is ignored, and the empty
(or all-whitespace) string converts to `0`. -/
def jsParseNum (s : String) : Option ℚ :=
  let trimmed := ((s.data.dropWhile isJsSpace).reverse.dropWhile isJsSpace).reverse
  if trimmed.isEmpty then some 0 else parseSigned trimmed

/-- Model of JavaScript number-to-string conversion.  Integral values
print without a decimal point; the non-integral case is an injective
placeholder rendering (the claims under verification never depend on the
exact digits of a non-integral rendering). -/
def numToString (q : ℚ) : String :=
  if q.den = 1 then toString q.num else toString q.num ++ "/" ++ toString q.den

/-- Injective placeholder for the date-to-string builtin on a valid
timestamp. -/
def dateToString : Option Int → String
  | none => "Invalid Date"
  | some t => "Date " ++ toString t

/-- Placeholder for `Date.prototype.toJSON` on a valid timestamp (the
real builtin renders an ISO timestamp; only its leading quote matters
here). -/
def dateJson (t : Int) : String := "\"" ++ toString t ++ "\""

/-- `String(primitive)` (`String([...])` joins elements with commas and
renders null and undefined elements as empty strings). -/
def primToString : JSPrim → String
  | .null => "null"
  | .undefined => "undefined"
  | .bool true => "true"
  | .bool false => "false"
  | .num q => numToString q
  | .str s => s
  | .func _ => "function"

/-- Array element rendering used by `Array.prototype.toString`. -/
def primToArrayElem : JSPrim → String
  | .null => ""
  | .undefined => ""
  | p => primToString p

/-- Model of the `String(value)` coercion. -/
def jsToString : JSValue → String
  | .prim p => primToString p
  | .arr xs => String.intercalate "," (xs.map primToArrayElem)
  | .obj _ => "[object Object]"
  | .date t => dateToString t

/-- JSON rendering of a primitive in array-element position
(`JSON.stringify` renders undefined and function elements as `null`). -/
def primToJson : JSPrim → String
  | .null => "null"
  | .undefined => "null"
  | .bool true => "true"
  | .bool false => "false"
  | .num q => numToString q
  | .str s => "\"" ++ s ++ "\""
  | .func _ => "null"

/-- Whether an object field survives `JSON.stringify` (undefined and
function valued fields are dropped). -/
def jsonKeeps : JSPrim → Bool
  | .undefined => false
  | .func _ => false
  | _ => true

/-- Model of `JSON.stringify(value)` for the values the sanitizers feed
it (truthy objects); on a primitive it returns the JSON text of that
primitive.  `JSON.stringify` of an Invalid Date is `null` (its `toJSON`
returns null). -/
def jsonStringify : JSValue → String
  | .prim p => primToJson p
  | .arr xs => "[" ++ String.intercalate "," (xs.map primToJson) ++ "]"
  | .obj fields =>
      "\x7b" ++ String.intercalate ","
        ((fields.filter (fun kv => jsonKeeps kv.2)).map
          (fun kv => "\"" ++ kv.1 ++ "\":" ++ primToJson kv.2)) ++ "\x7d"
  | .date none => "null"
  | .date (some t) => dateJson t

/-- Model of `String.prototype.toLowerCase` (character-wise lowering). -/
def jsToLower (s : String) : String :=
  String.mk (s.data.map Char.toLower)

/-- Does `hay` start with `needle`? -/
def listStartsWith : List Char → List Char → Bool
  | [], _ => true
  | _ :: _, [] => false
  | n :: ns, h :: hs => n = h && listStartsWith ns hs

/-- Does `needle` occur contiguously inside `hay`?  Model of
`String.prototype.includes`. -/
def listHasInfix (needle : List Char) : List Char → Bool
  | [] => listStartsWith needle []
  | c :: rest => listStartsWith needle (c :: rest) || listHasInfix needle rest

/-- `hay.includes(needle)`. -/
def strIncludes (hay needle : String) : Bool :=
  listHasInfix needle.data hay.data

/-- Model of `String.prototype.localeCompare`, as a three-way
lexicographic comparison returning the canonical signs. -/
def lcmp (s t : String) : ℚ :=
  if s < t then -1 else if t < s then 1 else 0

/-! ### Records -/

/-- A parsed record: an ordered association of column names to values.
JavaScript objects cannot repeat a key, so every record operation reads
keys through `keysOf` (first occurrence wins, matching property
semantics). -/
abbrev JSRecord := List (String × JSValue)

/-- `Object.keys(row)`. -/
def keysOf (r : JSRecord) : List String :=
  (r.map Prod.fst).dedup

/-- `row[k]`: a missing key reads as `undefined`. -/
def getVal (r : JSRecord) (k : String) : JSValue :=
  match r.lookup k with
  | some v => v
  | none => .prim .undefined

/-- `Object.values(row)`. -/
def valuesOf (r : JSRecord) : List JSValue :=
  (keysOf r).map (getVal r)

/-! ### The sanitizers -/

/-- Per-value sanitization of the table fetch path (DataTable
`fetchData`): a truthy object carrying the marker becomes the literal
placeholder string, any other truthy object becomes its JSON text, and
everything else passes through. -/
def sanitizeValueTable (v : JSValue) : JSValue :=
  if v.isTruthyObject && v.hasMarker then .prim (.str "[React Element]")
  else if v.isTruthyObject then .prim (.str (jsonStringify v))
  else v

/-- Per-value sanitization of the export path (index.tsx
`handleExport`); the source text coincides with the table path. -/
def sanitizeValueExport (v : JSValue) : JSValue :=
  if v.isTruthyObject && v.hasMarker then .prim (.str "[React Element]")
  else if v.isTruthyObject then .prim (.str (jsonStringify v))
  else v

/-- Per-value sanitization of the chart path (ChartView `chartData`):
the marker case degrades to `null` instead of the placeholder string. -/
def sanitizeValueChart (v : JSValue) : JSValue :=
  if v.isTruthyObject && v.hasMarker then .prim .null
  else if v.isTruthyObject then .prim (.str (jsonStringify v))
  else v

/-- Row sanitization of the table fetch path (`Object.entries(row)`
iterated in key order). -/
def sanitizeRowTable (r : JSRecord) : JSRecord :=
  (keysOf r).map (fun k => (k, sanitizeValueTable (getVal r k)))

/-- Row sanitization of the export path. -/
def sanitizeRowExport (r : JSRecord) : JSRecord :=
  (keysOf r).map (fun k => (k, sanitizeValueExport (getVal r k)))

/-- Row sanitization of the chart path. -/
def sanitizeRowChart (r : JSRecord) : JSRecord :=
  (keysOf r).map (fun k => (k, sanitizeValueChart (getVal r k)))

/-! ### The chart summary (ChartView `chartData`) -/

/-- The first-record eligibility test of `numericKeys`: the value must
be non-null, non-undefined, and either a number or a string `s` with
`!isNaN(Number(s))`. -/
def numericEligible (v : JSValue) : Bool :=
  match v with
  | .prim (.num _) => true
  | .prim (.str s) => (jsParseNum s).isSome
  | _ => false

/-- `numericKeys`: the keys of the first record whose first-record value
passes `numericEligible`. -/
def numericKeys (r0 : JSRecord) : List String :=
  (keysOf r0).filter (fun k => numericEligible (getVal r0 k))

/-- One chart point: a number contributes itself, a fully numeric string
contributes its parsed value, anything else contributes `null`
(modelled as `none`). -/
def pointOf (v : JSValue) : Option ℚ :=
  match v with
  | .prim (.num q) => some q
  | .prim (.str s) => jsParseNum s
  | _ => none

/-- The value series of one eligible column, read positionally from the
chart-sanitized rows. -/
def seriesFor (rows : List JSRecord) (k : String) : List (Option ℚ) :=
  (rows.map sanitizeRowChart).map (fun r => pointOf (getVal r k))

/-- `chartData` on loaded data: `none` when the dataset is empty or no
column is numeric-eligible, otherwise the positional labels and one
labelled series per eligible column. -/
def chartData (rows : List JSRecord) :
    Option (List String × List (String × List (Option ℚ))) :=
  match rows with
  | [] => none
  | r0 :: _ =>
      let nk := numericKeys r0
      if nk.isEmpty then none
      else
        some (rows.mapIdx (fun i _ => "Row " ++ toString (i + 1)),
          nk.map (fun k => (k, seriesFor rows k)))

/-- The columns of the chart summary. -/
def includedKeys (rows : List JSRecord) : List String :=
  match chartData rows with
  | none => []
  | some (_, ds) => ds.map Prod.fst

/-! ### The table view: `filteredData` -/

/-- Does the record survive the free-text filter?  `Object.values(row)`
must contain some value whose lowered string form includes the lowered
filter. -/
def rowMatches (filter : String) (r : JSRecord) : Bool :=
  (valuesOf r).any (fun v => strIncludes (jsToLower (jsToString v)) (jsToLower filter))

/-- `filteredData` on loaded data. -/
def filteredData (filter : String) (rows : List JSRecord) : List JSRecord :=
  rows.filter (rowMatches filter)

/-! ### The table view: `sortedData` -/

/-- The comparator body applied to the two looked-up sort-column
values. -/
def compareVals (asc : Bool) (aVal bVal : JSValue) : ℚ :=
  if aVal.isNullish then (if asc then -1 else 1)
  else if bVal.isNullish then (if asc then 1 else -1)
  else
    match aVal, bVal with
    | .prim (.num x), .prim (.num y) => if asc then x - y else y - x
    | .date tx, .date ty =>
        match tx, ty with
        | some at', some bt =>
            if asc then (at' : ℚ) - (bt : ℚ) else (bt : ℚ) - (at' : ℚ)
        | _, _ =>
            if asc then lcmp (jsToString (.date tx)) (jsToString (.date ty))
            else lcmp (jsToString (.date ty)) (jsToString (.date tx))
    | va, vb =>
        if asc then lcmp (jsToString va) (jsToString vb)
        else lcmp (jsToString vb) (jsToString va)

/-- The comparator passed to `Array.prototype.sort` by `sortedData`.
The result is a JavaScript number; only its sign is consumed by the
sort. -/
def sortCompare (field : Option String) (asc : Bool) (a b : JSRecord) : ℚ :=
  match field with
  | none => 0
  | some f => compareVals asc (getVal a f) (getVal b f)

/-- Insert one element into a list, keeping it before the first element
it compares `<= 0` against; the tail step of a stable insertion sort. -/
def insertBy (le : α → α → Bool) (x : α) : List α → List α
  | [] => [x]
  | y :: ys => if le x y then x :: y :: ys else y :: insertBy le x ys

/-- Stable insertion sort: the model of `Array.prototype.sort` (ES2019
requires a stable sort; any stable sort realises the standard for
consistent comparators). -/
def stableSort (le : α → α → Bool) : List α → List α
  | [] => []
  | x :: xs => insertBy le x (stableSort le xs)

/-- `sortedData` on loaded data: a stable sort by the sign of
`sortCompare`. -/
def sortedData (field : Option String) (asc : Bool) (rows : List JSRecord) :
    List JSRecord :=
  stableSort (fun a b => sortCompare field asc a b ≤ 0) rows

/-! ### The export handler (index.tsx `handleExport`) -/

/-- The persistent state of the main page that `handleExport` can read
or write, together with the table component's own state (dataset,
filter, sort), which the handler never touches. -/
structure TableState where
  rows : List JSRecord
  filter : String
  sortField : Option String
  sortAsc : Bool
deriving DecidableEq, Repr

/-- The four error banners and the current CSV source path of the main
page, plus the table component's state. -/
structure HomeState where
  csvFilePath : String
  csvError : Option String
  fetchError : Option String
  parseError : Option String
  exportError : Option String
  table : TableState
deriving DecidableEq, Repr

/-- `handleExport`.  The network fetch, the CSV parser and the
`json2csv` serializer are external effects, passed in as oracles:
`fetchRes` is the fetched text or a fetch failure message, `parseFn`
models `Papa.parse` (an `error` models a nonempty `results.errors`),
and `serializeFn` models `new Parser().parse` (an `error` models a
thrown serialization exception).  The result is the updated page state
and the downloaded file content, `none` when no download is
triggered. -/
def handleExport (fetchRes : Except String String)
    (parseFn : String → Except String (List JSRecord))
    (serializeFn : List JSRecord → Except String String)
    (st : HomeState) : HomeState × Option String :=
  if st.csvFilePath = "" then
    ({ st with csvError := some "Please upload a CSV file first." }, none)
  else
    let st1 := { st with csvError := none, fetchError := none,
                         parseError := none, exportError := none }
    match fetchRes with
    | .error e => ({ st1 with fetchError := some ("Error fetching CSV file: " ++ e) }, none)
    | .ok csvText =>
        match parseFn csvText with
        | .error _ => ({ st1 with parseError := some "Error parsing CSV file." }, none)
        | .ok rows =>
            let sanitized := rows.map sanitizeRowExport
            match serializeFn sanitized with
            | .error _ =>
                ({ st1 with exportError := some "Error generating CSV file for download." }, none)
            | .ok csv => (st1, some csv)

/-! ### Spec-side definitions used to state the claims -/

/-- The value set the specification asserts for sanitized records:
a string (number-like strings and the fixed placeholder are strings) or
null. -/
def specScalarOK (v : JSValue) : Bool :=
  match v with
  | .prim .null => true
  | .prim (.str _) => true
  | _ => false

/-- Primitive in the JavaScript sense: everything except objects,
arrays, dates and functions. -/
def specIsPrimitive (v : JSValue) : Bool :=
  match v with
  | .prim (.func _) => false
  | .prim _ => true
  | _ => false

/-- The specification's per-record filter predicate: some value, in
string form, contains the filter case-insensitively. -/
def specMatches (filter : String) (r : JSRecord) : Prop :=
  ∃ v ∈ valuesOf r, strIncludes (jsToLower (jsToString v)) (jsToLower filter) = true

/-- The table component's initial state: nothing loaded, no filter, no
sort column. -/
def emptyTable : TableState :=
  { rows := [], filter := "", sortField := none, sortAsc := true }

/-- The main page's initial state: the default CSV path (a nonempty
string, source line 9 of index.tsx), no errors, nothing loaded. -/
def defaultPathState : HomeState :=
  { csvFilePath := "/2017PurchasePricesDec.csv", csvError := none, fetchError := none,
    parseError := none, exportError := none, table := emptyTable }

/-- A page state whose CSV path is empty (unreachable through the UI,
since the initial path is nonempty and every file selection stores a
nonempty blob URL). -/
def emptyPathState : HomeState :=
  { csvFilePath := "", csvError := none, fetchError := none,
    parseError := none, exportError := none, table := emptyTable }

/-- Are both values numbers (the comparator's numeric branch guard)? -/
def bothNums : JSValue → JSValue → Bool
  | .prim (.num _), .prim (.num _) => true
  | _, _ => false

/-- Are both values `Date` objects (the comparator's date branch
guard)? -/
def bothDates : JSValue → JSValue → Bool
  | .date _, .date _ => true
  | _, _ => false

/-- The sort-column value shapes a sanitized dataset can actually carry:
a string, `null`, or a missing key (`undefined`).  This is the
`SanitizedRecord` invariant of the specification's data model restricted
to the sort column. -/
def sortKeyScalar (f : String) (r : JSRecord) : Bool :=
  match getVal r f with
  | .prim .null => true
  | .prim .undefined => true
  | .prim (.str _) => true
  | _ => false

/-- The sort key of a record under the sanitized-scalar shapes: `none`
for null or a missing key, the string otherwise. -/
def keyOf (f : String) (r : JSRecord) : Option String :=
  match getVal r f with
  | .prim (.str s) => some s
  | _ => none

/-- The ascending comparator collapsed onto sort keys: a null or
missing key compares "before" anything (including another null key),
and two strings compare by `localeCompare`. -/
def keyCmp : Option String → Option String → ℚ
  | none, _ => -1
  | some _, none => 1
  | some s, some t => lcmp s t

/-- Attach increasing position tags to a list, starting at `n`. -/
def tagFrom (n : Nat) : List α → List (Nat × α)
  | [] => []
  | x :: xs => (n, x) :: tagFrom (n + 1) xs

/-- `p` occurs before `q` in `l` (at distinct positions). -/
def beforeIn (l : List α) (p q : α) : Prop :=
  List.Sublist [p, q] l

/-- The ascending comparator on position-tagged records. -/
def cmpA (f : String) (p q : Nat × JSRecord) : ℚ :=
  sortCompare (some f) true p.2 q.2

/-- The relative order realised by the ascending sort on position-tagged
records: strictly smaller sort keys first, and original positions among
records whose keys the comparator cannot separate (equal keys, or two
null/missing keys). -/
def ordAsc (f : String) (p q : Nat × JSRecord) : Prop :=
  (cmpA f p q < 0 ∧ 0 < cmpA f q p) ∨
    (cmpA f p q ≤ 0 ∧ cmpA f q p ≤ 0 ∧ p.1 < q.1)

/-- The relative order realised by the descending sort on
position-tagged records: strictly larger sort keys first, original
positions among equal keys, and reversed positions among null/missing
keys (each of two null keys compares "after" the other, so the stable
sort emits them in reversed order). -/
def ordDesc (f : String) (p q : Nat × JSRecord) : Prop :=
  (0 < cmpA f p q ∧ cmpA f q p < 0) ∨
    (cmpA f p q = 0 ∧ cmpA f q p = 0 ∧ p.1 < q.1) ∨
      (cmpA f p q < 0 ∧ cmpA f q p < 0 ∧ q.1 < p.1)

end Sustainity

namespace Sustainity

/-! ### Record and sanitizer lemmas -/

theorem keysOf_nodup (r : JSRecord) : (keysOf r).Nodup :=
  List.nodup_dedup _

theorem mem_keysOf {r : JSRecord} {k : String} : k ∈ keysOf r ↔ k ∈ r.map Prod.fst :=
  List.mem_dedup

theorem lookup_eq_none_of_not_mem {r : JSRecord} {k : String}
    (h : k ∉ r.map Prod.fst) : r.lookup k = none := by
  induction r with
  | nil => rfl
  | cons kv rest ih =>
      simp only [List.map_cons, List.mem_cons] at h
      push_neg at h
      simp only [List.lookup, beq_eq_false_iff_ne.mpr h.1]
      exact ih h.2

theorem lookup_map_keys (f : String → JSValue) (ks : List String) (k : String) :
    (ks.map (fun k2 => (k2, f k2))).lookup k =
      if k ∈ ks then some (f k) else none := by
  induction ks with
  | nil => simp
  | cons a rest ih =>
      by_cases hka : k = a
      · subst hka
        simp [List.lookup]
      · simp only [List.map_cons, List.lookup, beq_eq_false_iff_ne.mpr hka, ih,
          List.mem_cons]
        by_cases hm : k ∈ rest <;> simp [hm, hka]

theorem getVal_map_keys (r : JSRecord) (g : JSValue → JSValue)
    (hg : g (.prim .undefined) = .prim .undefined) (k : String) :
    getVal ((keysOf r).map (fun k2 => (k2, g (getVal r k2)))) k = g (getVal r k) := by
  unfold getVal
  rw [lookup_map_keys]
  by_cases hm : k ∈ keysOf r
  · simp [hm, getVal]
  · have hlk : r.lookup k = none :=
      lookup_eq_none_of_not_mem (fun hc => hm (mem_keysOf.mpr hc))
    simp [hm, getVal, hlk, hg]

theorem getVal_sanitizeRowChart (r : JSRecord) (k : String) :
    getVal (sanitizeRowChart r) k = sanitizeValueChart (getVal r k) :=
  getVal_map_keys r sanitizeValueChart rfl k

theorem getVal_sanitizeRowTable (r : JSRecord) (k : String) :
    getVal (sanitizeRowTable r) k = sanitizeValueTable (getVal r k) :=
  getVal_map_keys r sanitizeValueTable rfl k

/-- Every sanitized value is a primitive (the sanitizers replace every
truthy object with a string, and everything else is already a
primitive). -/
theorem sanitizeValueTable_isPrim (v : JSValue) :
    ∃ p : JSPrim, sanitizeValueTable v = .prim p := by
  cases v with
  | prim p =>
      exact ⟨p, by simp [sanitizeValueTable, JSValue.isTruthyObject]⟩
  | arr xs =>
      exact ⟨.str (jsonStringify (JSValue.arr xs)),
        by simp [sanitizeValueTable, JSValue.isTruthyObject, JSValue.hasMarker]⟩
  | obj fields =>
      by_cases hm : (JSValue.obj fields).hasMarker = true
      · exact ⟨.str "[React Element]",
          by simp [sanitizeValueTable, JSValue.isTruthyObject, hm]⟩
      · exact ⟨.str (jsonStringify (JSValue.obj fields)),
          by simp [sanitizeValueTable, JSValue.isTruthyObject, Bool.eq_false_iff.mpr hm]⟩
  | date t =>
      exact ⟨.str (jsonStringify (JSValue.date t)),
        by simp [sanitizeValueTable, JSValue.isTruthyObject, JSValue.hasMarker]⟩

theorem sanitizeValueExport_eq_table (v : JSValue) :
    sanitizeValueExport v = sanitizeValueTable v := rfl

theorem sanitizeValue_not_truthyObject (v : JSValue) :
    (sanitizeValueTable v).isTruthyObject = false := by
  obtain ⟨p, hp⟩ := sanitizeValueTable_isPrim v
  rw [hp]; rfl

theorem sanitizeValueTable_of_not_object {v : JSValue}
    (h : v.isTruthyObject = false) : sanitizeValueTable v = v := by
  simp [sanitizeValueTable, h]

theorem sanitizeValueChart_of_not_object {v : JSValue}
    (h : v.isTruthyObject = false) : sanitizeValueChart v = v := by
  simp [sanitizeValueChart, h]

/-- Claim C2 counterexample: sanitizing a record holding a function
value leaves the function in place, so the sanitized value is neither a
string, a number-like string, null, nor the placeholder - the claimed
output set is violated at this concrete record. -/
theorem sanitize_scalar_set_counterexample :
    ¬ (∀ kv ∈ sanitizeRowTable [("f", JSValue.prim (.func 0))],
        specScalarOK kv.2 = true) := by
  decide

/-- Claim C2 (amended): sanitize is total (it is a function of the
model), and every value of a sanitized record - on the table fetch path
and on the export path alike - is either a string or the original
primitive-or-function value passed through unchanged; no sanitized value
is ever an object, an array or a `Date`. -/
theorem sanitize_values_never_containers
    (r : JSRecord) (kv : String × JSValue)
    (h : kv ∈ sanitizeRowTable r ∨ kv ∈ sanitizeRowExport r) :
    kv.2.isTruthyObject = false ∧
      ((∃ s, kv.2 = JSValue.prim (.str s)) ∨ kv.2 = getVal r kv.1) := by
  have hmem : kv ∈ sanitizeRowTable r := by
    rcases h with h | h
    · exact h
    · exact h
  rcases List.mem_map.mp hmem with ⟨k, _, hk⟩
  subst hk
  refine ⟨sanitizeValue_not_truthyObject _, ?_⟩
  by_cases ho : (getVal r k).isTruthyObject = true
  · left
    by_cases hm : (getVal r k).hasMarker = true
    · exact ⟨"[React Element]", by simp [sanitizeValueTable, ho, hm]⟩
    · exact ⟨jsonStringify (getVal r k),
        by simp [sanitizeValueTable, ho, Bool.eq_false_iff.mpr hm]⟩
  · right
    simpa using sanitizeValueTable_of_not_object (Bool.eq_false_iff.mpr ho)

theorem sanitize_values_never_containers_witness :
    (("a", JSValue.prim (.str "\x7b\"x\":1\x7d")) ∈
        sanitizeRowTable [("a", JSValue.obj [("x", .num 1)])] ∨
      ("a", JSValue.prim (.str "\x7b\"x\":1\x7d")) ∈
        sanitizeRowExport [("a", JSValue.obj [("x", .num 1)])]) ∧
    ((JSValue.prim (.str "\x7b\"x\":1\x7d")).isTruthyObject = false ∧
      ((∃ s, JSValue.prim (.str "\x7b\"x\":1\x7d") = JSValue.prim (.str s)) ∨
        JSValue.prim (.str "\x7b\"x\":1\x7d") =
          getVal [("a", JSValue.obj [("x", .num 1)])] "a")) := by
  refine ⟨Or.inl (by decide), ?_⟩
  exact sanitize_values_never_containers
    [("a", JSValue.obj [("x", .num 1)])]
    ("a", JSValue.prim (.str "\x7b\"x\":1\x7d")) (Or.inl (by decide))

/-- Claim C3 counterexample: a function value is a non-primitive without
the rendered-UI marker, yet sanitize does not replace it with its JSON
text representation (it passes it through unchanged), because the
`typeof value === 'object'` guard is false for functions. -/
theorem sanitize_nonprimitive_rule_counterexample :
    specIsPrimitive (JSValue.prim (.func 0)) = false ∧
      (JSValue.prim (.func 0)).hasMarker = false ∧
      sanitizeValueTable (JSValue.prim (.func 0)) ≠
        JSValue.prim (.str (jsonStringify (JSValue.prim (.func 0)))) := by
  decide

/-- Claim C3 (amended): per value, a truthy value of object type
carrying the rendered-UI marker becomes the literal string
`"[React Element]"` on the table and export paths and `null` on the
chart path; every other truthy value of object type becomes its JSON
text representation on all three paths; and every primitive - and every
function, since `typeof` classifies functions outside `'object'` -
passes through unchanged. -/
theorem sanitize_value_rule_by_path (v : JSValue) :
    (v.isTruthyObject = false →
      sanitizeValueTable v = v ∧ sanitizeValueExport v = v ∧ sanitizeValueChart v = v) ∧
    (v.isTruthyObject = true → v.hasMarker = true →
      sanitizeValueTable v = JSValue.prim (.str "[React Element]") ∧
        sanitizeValueExport v = JSValue.prim (.str "[React Element]") ∧
        sanitizeValueChart v = JSValue.prim .null) ∧
    (v.isTruthyObject = true → v.hasMarker = false →
      sanitizeValueTable v = JSValue.prim (.str (jsonStringify v)) ∧
        sanitizeValueExport v = JSValue.prim (.str (jsonStringify v)) ∧
        sanitizeValueChart v = JSValue.prim (.str (jsonStringify v))) := by
  refine ⟨?_, ?_, ?_⟩
  · intro h
    exact ⟨sanitizeValueTable_of_not_object h, sanitizeValueTable_of_not_object h,
      sanitizeValueChart_of_not_object h⟩
  · intro ho hm
    exact ⟨by simp [sanitizeValueTable, ho, hm], by simp [sanitizeValueExport, ho, hm],
      by simp [sanitizeValueChart, ho, hm]⟩
  · intro ho hm
    exact ⟨by simp [sanitizeValueTable, ho, hm], by simp [sanitizeValueExport, ho, hm],
      by simp [sanitizeValueChart, ho, hm]⟩

theorem sanitize_value_rule_by_path_witness :
    ((JSValue.prim (.str "x")).isTruthyObject = false →
      sanitizeValueTable (JSValue.prim (.str "x")) = JSValue.prim (.str "x") ∧
        sanitizeValueExport (JSValue.prim (.str "x")) = JSValue.prim (.str "x") ∧
        sanitizeValueChart (JSValue.prim (.str "x")) = JSValue.prim (.str "x")) ∧
    ((JSValue.obj [("$$typeof", .str "react.element")]).isTruthyObject = true →
      (JSValue.obj [("$$typeof", .str "react.element")]).hasMarker = true →
      sanitizeValueTable (JSValue.obj [("$$typeof", .str "react.element")]) =
          JSValue.prim (.str "[React Element]") ∧
        sanitizeValueExport (JSValue.obj [("$$typeof", .str "react.element")]) =
          JSValue.prim (.str "[React Element]") ∧
        sanitizeValueChart (JSValue.obj [("$$typeof", .str "react.element")]) =
          JSValue.prim .null) := by
  constructor
  · intro h
    exact (sanitize_value_rule_by_path (JSValue.prim (.str "x"))).1 h
  · intro ho hm
    exact ((sanitize_value_rule_by_path
      (JSValue.obj [("$$typeof", .str "react.element")])).2.1) ho hm

/-! ### Number parsing lemmas -/

theorem dropWhile_append_singleton (p : Char → Bool) (c : Char) (h : p c = false)
    (t : List Char) : ∃ u, (t ++ [c]).dropWhile p = u ++ [c] := by
  induction t with
  | nil => exact ⟨[], by simp [List.dropWhile_cons, h]⟩
  | cons a t ih =>
      by_cases ha : p a = true
      · simpa [List.dropWhile_cons, ha] using ih
      · exact ⟨a :: t, by simp [List.dropWhile_cons, Bool.eq_false_iff.mpr ha]⟩

/-- A string whose first character is not whitespace, not a digit, not a
sign and not a dot never converts to a number. -/
theorem jsParseNum_head_not_numeric (s : String) (c : Char) (rest : List Char)
    (hdata : s.data = c :: rest) (hsp : isJsSpace c = false)
    (hdig : c.isDigit = false) (hplus : c ≠ '+') (hminus : c ≠ '-')
    (hdot : c ≠ '.') : jsParseNum s = none := by
  unfold jsParseNum
  rw [hdata]
  rw [List.dropWhile_cons, hsp]
  simp only [Bool.false_eq_true, if_false, List.reverse_cons]
  obtain ⟨u, hu⟩ := dropWhile_append_singleton isJsSpace c hsp rest.reverse
  rw [hu, List.reverse_append, List.reverse_cons, List.reverse_nil, List.nil_append,
    List.singleton_append]
  simp only [List.isEmpty_cons, Bool.false_eq_true, if_false]
  simp only [parseSigned, if_neg hplus, if_neg hminus]
  simp only [parseDecimal, List.takeWhile_cons, List.dropWhile_cons, hdig,
    Bool.false_eq_true, if_false, if_neg hdot]

theorem jsParseNum_jsonStringify_isTruthyObject {v : JSValue}
    (h : v.isTruthyObject = true) : jsParseNum (jsonStringify v) = none := by
  cases v with
  | prim p => simp [JSValue.isTruthyObject] at h
  | arr xs =>
      refine jsParseNum_head_not_numeric _ '['
        ((String.intercalate "," (xs.map primToJson) ++ "]").data) ?_
        (by decide) (by decide) (by decide) (by decide) (by decide)
      show ("[" ++ (String.intercalate "," (xs.map primToJson) ++ "]")).data = _
      rw [String.data_append]
      rfl
  | obj fields =>
      refine jsParseNum_head_not_numeric _ '\x7b'
        ((String.intercalate ","
          ((fields.filter (fun kv => jsonKeeps kv.2)).map
            (fun kv => "\"" ++ kv.1 ++ "\":" ++ primToJson kv.2)) ++ "\x7d").data) ?_
        (by decide) (by decide) (by decide) (by decide) (by decide)
      show ("\x7b" ++ (String.intercalate "," _ ++ "\x7d")).data = _
      rw [String.data_append]
      rfl
  | date t =>
      cases t with
      | none =>
          exact jsParseNum_head_not_numeric _ 'n' ['u', 'l', 'l']
            rfl (by decide) (by decide) (by decide) (by decide) (by decide)
      | some i =>
          refine jsParseNum_head_not_numeric _ '"'
            ((toString i ++ "\"").data) ?_
            (by decide) (by decide) (by decide) (by decide) (by decide)
          show ("\"" ++ (toString i ++ "\"")).data = _
          rw [String.data_append]
          rfl

/-! ### Chart summary lemmas -/

/-- Chart-path sanitization never changes the chart point a value
contributes: objects sanitize to JSON strings (or `null` for marked
objects), and a JSON text of an object never parses as a number. -/
theorem pointOf_sanitizeValueChart (v : JSValue) :
    pointOf (sanitizeValueChart v) = pointOf v := by
  by_cases ho : v.isTruthyObject = true
  · have hpt : pointOf v = none := by
      cases v with
      | prim p => simp [JSValue.isTruthyObject] at ho
      | arr xs => rfl
      | obj fields => rfl
      | date t => rfl
    rw [hpt]
    by_cases hm : v.hasMarker = true
    · simp [sanitizeValueChart, ho, hm, pointOf]
    · simp only [sanitizeValueChart, ho, Bool.eq_false_iff.mpr hm, Bool.true_and,
        Bool.false_eq_true, if_false, if_true, pointOf]
      exact jsParseNum_jsonStringify_isTruthyObject ho
  · rw [sanitizeValueChart_of_not_object (Bool.eq_false_iff.mpr ho)]

theorem seriesFor_eq_pointOf (rows : List JSRecord) (k : String) :
    seriesFor rows k = rows.map (fun r => pointOf (getVal r k)) := by
  unfold seriesFor
  rw [List.map_map]
  refine List.map_congr_left (fun r _ => ?_)
  show pointOf (getVal (sanitizeRowChart r) k) = pointOf (getVal r k)
  rw [getVal_sanitizeRowChart, pointOf_sanitizeValueChart]

theorem seriesFor_length (rows : List JSRecord) (k : String) :
    (seriesFor rows k).length = rows.length := by
  rw [seriesFor_eq_pointOf, List.length_map]

theorem seriesFor_get? (rows : List JSRecord) (k : String) (i : Nat) :
    (seriesFor rows k).get? i = (rows.get? i).map (fun r => pointOf (getVal r k)) := by
  rw [seriesFor_eq_pointOf, List.get?_map]

theorem includedKeys_cons (r0 : JSRecord) (rest : List JSRecord) :
    includedKeys (r0 :: rest) = numericKeys r0 := by
  unfold includedKeys chartData
  by_cases h : (numericKeys r0).isEmpty = true
  · simp only [h, if_true]
    exact (List.isEmpty_iff.mp h).symm
  · simp only [Bool.eq_false_iff.mpr h, Bool.false_eq_true, if_false, List.map_map]
    exact List.map_id _

theorem mem_numericKeys {r0 : JSRecord} {k : String} :
    k ∈ numericKeys r0 ↔ k ∈ keysOf r0 ∧ numericEligible (getVal r0 k) = true :=
  List.mem_filter

theorem mem_keysOf_of_getVal_str {r : JSRecord} {k : String} {s : String}
    (h : getVal r k = JSValue.prim (.str s)) : k ∈ keysOf r := by
  by_contra hc
  have hlk : r.lookup k = none :=
    lookup_eq_none_of_not_mem (fun hm => hc (mem_keysOf.mpr hm))
  rw [getVal, hlk] at h
  exact absurd h (by simp)

/-- Claim C1: a column enters the chart summary of a non-empty dataset
if and only if its value in the first record is non-null and either a
number or a fully numeric string; the eligibility predicate is exactly
that; the summary's series for an included column is its positional
value series; and that series is positionally aligned with the records,
each record contributing its numeric (or fully parsed) value when
numeric and `null` otherwise - so a non-numeric value in a later row
only yields a null point, never removes the column. -/
theorem chart_columns_first_record_iff (r0 : JSRecord) (rest : List JSRecord)
    (k : String) :
    (k ∈ includedKeys (r0 :: rest) ↔
      k ∈ keysOf r0 ∧ numericEligible (getVal r0 k) = true) ∧
    (∀ v : JSValue, numericEligible v = true ↔
      ((∃ q, v = JSValue.prim (.num q)) ∨
        (∃ s, v = JSValue.prim (.str s) ∧ (jsParseNum s).isSome = true))) ∧
    (∀ labels ds s, chartData (r0 :: rest) = some (labels, ds) →
      (k, s) ∈ ds → s = seriesFor (r0 :: rest) k) ∧
    (seriesFor (r0 :: rest) k).length = (r0 :: rest).length ∧
    (∀ i r, (r0 :: rest).get? i = some r →
      (seriesFor (r0 :: rest) k).get? i = some (pointOf (getVal r k))) := by
  refine ⟨?_, ?_, ?_, seriesFor_length _ _, ?_⟩
  · rw [includedKeys_cons]
    exact mem_numericKeys
  · intro v
    cases v with
    | prim p =>
        cases p with
        | num q => simp [numericEligible]
        | str s => simp [numericEligible]
        | null => simp [numericEligible]
        | undefined => simp [numericEligible]
        | bool b => simp [numericEligible]
        | func n => simp [numericEligible]
    | arr xs => simp [numericEligible]
    | obj fields => simp [numericEligible]
    | date t => simp [numericEligible]
  · intro labels ds s hcd hmem
    unfold chartData at hcd
    by_cases h : (numericKeys r0).isEmpty = true
    · simp [h] at hcd
    · simp only [Bool.eq_false_iff.mpr h, Bool.false_eq_true, if_false,
        Option.some_inj, Prod.mk.injEq] at hcd
      rw [← hcd.2] at hmem
      rcases List.mem_map.mp hmem with ⟨k2, _, hk2⟩
      simp only [Prod.mk.injEq] at hk2
      rw [← hk2.2, hk2.1]
  · intro i r hir
    rw [seriesFor_get?, hir]
    rfl

theorem chart_columns_first_record_iff_witness :
    ("price" ∈ includedKeys
        [[("name", JSValue.prim (.str "Apple")), ("price", JSValue.prim (.str "1.5"))],
          [("name", JSValue.prim (.str "Banana")), ("price", JSValue.prim (.str "abc"))]] ↔
      "price" ∈ keysOf [("name", JSValue.prim (.str "Apple")),
          ("price", JSValue.prim (.str "1.5"))] ∧
        numericEligible (getVal [("name", JSValue.prim (.str "Apple")),
          ("price", JSValue.prim (.str "1.5"))] "price") = true) ∧
    (seriesFor
        [[("name", JSValue.prim (.str "Apple")), ("price", JSValue.prim (.str "1.5"))],
          [("name", JSValue.prim (.str "Banana")), ("price", JSValue.prim (.str "abc"))]]
        "price").get? 1 = some none := by
  constructor
  · exact (chart_columns_first_record_iff
      [("name", JSValue.prim (.str "Apple")), ("price", JSValue.prim (.str "1.5"))]
      [[("name", JSValue.prim (.str "Banana")), ("price", JSValue.prim (.str "abc"))]]
      "price").1
  · have h := (chart_columns_first_record_iff
      [("name", JSValue.prim (.str "Apple")), ("price", JSValue.prim (.str "1.5"))]
      [[("name", JSValue.prim (.str "Banana")), ("price", JSValue.prim (.str "abc"))]]
      "price").2.2.2.2 1
      [("name", JSValue.prim (.str "Banana")), ("price", JSValue.prim (.str "abc"))]
      (by decide)
    rw [h]
    decide

/-- Claim C10: when the first record maps a column to the empty string,
the column is numeric-eligible (the `Number` builtin converts the empty
string to `0`, so `isNaN(Number(""))` is false), and every record whose
value at that column is the empty string contributes the numeric point
`0`, not null. -/
theorem empty_string_column_charts_as_zero (r0 : JSRecord) (rest : List JSRecord)
    (k : String) (h0 : getVal r0 k = JSValue.prim (.str "")) :
    k ∈ includedKeys (r0 :: rest) ∧
    ∀ i r, (r0 :: rest).get? i = some r → getVal r k = JSValue.prim (.str "") →
      (seriesFor (r0 :: rest) k).get? i = some (some 0) := by
  constructor
  · rw [includedKeys_cons]
    refine mem_numericKeys.mpr ⟨mem_keysOf_of_getVal_str h0, ?_⟩
    rw [h0]
    decide
  · intro i r hir hr
    rw [seriesFor_get?, hir]
    show some (pointOf (getVal r k)) = some (some 0)
    rw [hr]
    decide

theorem empty_string_column_charts_as_zero_witness :
    getVal [("a", JSValue.prim (.str ""))] "a" = JSValue.prim (.str "") ∧
    "a" ∈ includedKeys [[("a", JSValue.prim (.str ""))],
        [("a", JSValue.prim (.str ""))]] ∧
    (seriesFor [[("a", JSValue.prim (.str ""))], [("a", JSValue.prim (.str ""))]]
        "a").get? 1 = some (some 0) := by
  have h := empty_string_column_charts_as_zero [("a", JSValue.prim (.str ""))]
    [[("a", JSValue.prim (.str ""))]] "a" (by decide)
  exact ⟨by decide, h.1, h.2 1 [("a", JSValue.prim (.str ""))] (by decide) (by decide)⟩

/-! ### Filter lemmas -/

theorem jsToLower_append (s t : String) :
    jsToLower (s ++ t) = jsToLower s ++ jsToLower t := by
  show String.mk _ = String.mk _ ++ String.mk _
  have hd : (s ++ t).data.map Char.toLower =
      s.data.map Char.toLower ++ t.data.map Char.toLower := by
    rw [String.data_append, List.map_append]
  exact congrArg String.mk hd

theorem listStartsWith_append_left {a b h : List Char}
    (hs : listStartsWith (a ++ b) h = true) : listStartsWith a h = true := by
  induction a generalizing h with
  | nil => rfl
  | cons x a' ih =>
      cases h with
      | nil => simp [listStartsWith] at hs
      | cons y h' =>
          simp only [List.cons_append, listStartsWith, Bool.and_eq_true] at hs ⊢
          exact ⟨hs.1, ih hs.2⟩

theorem listHasInfix_append_left {a b h : List Char}
    (hs : listHasInfix (a ++ b) h = true) : listHasInfix a h = true := by
  induction h with
  | nil => exact listStartsWith_append_left hs
  | cons c rest ih =>
      simp only [listHasInfix, Bool.or_eq_true] at hs ⊢
      rcases hs with hs | hs
      · exact Or.inl (listStartsWith_append_left hs)
      · exact Or.inr (ih hs)

theorem strIncludes_append_left {hay : String} {s t : String}
    (h : strIncludes hay (s ++ t) = true) : strIncludes hay s = true := by
  unfold strIncludes at h ⊢
  rw [String.data_append] at h
  exact listHasInfix_append_left h

theorem rowMatches_append_left (s t : String) (r : JSRecord)
    (h : rowMatches (s ++ t) r = true) : rowMatches s r = true := by
  unfold rowMatches at h ⊢
  rcases List.any_eq_true.mp h with ⟨v, hv, hinc⟩
  refine List.any_eq_true.mpr ⟨v, hv, ?_⟩
  rw [jsToLower_append] at hinc
  exact strIncludes_append_left hinc

theorem listHasInfix_nil_needle (h : List Char) : listHasInfix [] h = true := by
  cases h with
  | nil => rfl
  | cons c rest => simp [listHasInfix, listStartsWith]

theorem any_const_true (l : List α) : (l.any fun _ => true) = !l.isEmpty := by
  cases l <;> simp

theorem rowMatches_empty_filter (r : JSRecord) :
    rowMatches "" r = !(valuesOf r).isEmpty := by
  unfold rowMatches
  have hinc : ∀ v : JSValue,
      strIncludes (jsToLower (jsToString v)) (jsToLower "") = true := by
    intro v
    exact listHasInfix_nil_needle _
  calc (valuesOf r).any
        (fun v => strIncludes (jsToLower (jsToString v)) (jsToLower ""))
      = (valuesOf r).any (fun _ => true) := by
        induction valuesOf r with
        | nil => rfl
        | cons v vs ih => simp only [List.any_cons, ih, hinc v]
    _ = !(valuesOf r).isEmpty := any_const_true _

/-- Claim C6 counterexample: with the empty filter, a record with no
columns is dropped - `Object.values(row).some(...)` over an empty value
list is `false` - so the empty filter does not retain every record. -/
theorem empty_filter_drops_empty_record :
    filteredData "" [([] : JSRecord)] ≠ [([] : JSRecord)] := by
  decide

/-- Claim C6 (amended): a record appears in the table view if and only
if at least one of its values, in string form, contains the filter as a
case-insensitive substring; the view preserves source order; and the
empty filter retains exactly the records that have at least one column
(a zero-column record is always dropped, because the existential over
its values is vacuously false). -/
theorem filter_membership_rule (filter : String) (rows : List JSRecord)
    (r : JSRecord) :
    (r ∈ filteredData filter rows ↔ r ∈ rows ∧ specMatches filter r) ∧
    (filteredData filter rows).Sublist rows ∧
    filteredData "" rows = rows.filter (fun r2 => !(valuesOf r2).isEmpty) := by
  refine ⟨?_, List.filter_sublist rows, ?_⟩
  · rw [filteredData, List.mem_filter]
    constructor
    · rintro ⟨hm, hp⟩
      exact ⟨hm, List.any_eq_true.mp hp⟩
    · rintro ⟨hm, hp⟩
      exact ⟨hm, List.any_eq_true.mpr hp⟩
  · refine List.filter_congr (fun r2 _ => ?_)
    exact rowMatches_empty_filter r2

theorem filter_membership_rule_witness :
    ([("name", JSValue.prim (.str "Banana"))] ∈
        filteredData "ban" [[("name", JSValue.prim (.str "Apple"))],
          [("name", JSValue.prim (.str "Banana"))]] ↔
      [("name", JSValue.prim (.str "Banana"))] ∈
          [[("name", JSValue.prim (.str "Apple"))],
            [("name", JSValue.prim (.str "Banana"))]] ∧
        specMatches "ban" [("name", JSValue.prim (.str "Banana"))]) ∧
    (filteredData "ban" [[("name", JSValue.prim (.str "Apple"))],
        [("name", JSValue.prim (.str "Banana"))]]).Sublist
      [[("name", JSValue.prim (.str "Apple"))],
        [("name", JSValue.prim (.str "Banana"))]] ∧
    filteredData "" [[("name", JSValue.prim (.str "Apple"))],
        [("name", JSValue.prim (.str "Banana"))]] =
      [[("name", JSValue.prim (.str "Apple"))],
        [("name", JSValue.prim (.str "Banana"))]].filter
        (fun r2 => !(valuesOf r2).isEmpty) :=
  filter_membership_rule "ban"
    [[("name", JSValue.prim (.str "Apple"))], [("name", JSValue.prim (.str "Banana"))]]
    [("name", JSValue.prim (.str "Banana"))]

/-- Claim C7: appending to the filter string never grows the filtered
view - every record matching the longer filter also matches its prefix,
so the retained count is monotone non-increasing. -/
theorem filter_monotone_in_filter_string (s t : String) (rows : List JSRecord) :
    (filteredData (s ++ t) rows).length ≤ (filteredData s rows).length :=
  (List.monotone_filter_right rows
    (fun _r hr => rowMatches_append_left s t _r hr)).length_le

/-! ### Export handler theorems -/

/-- Claim C8: when CSV serialization throws, the handler surfaces
exactly one user-facing export-failed condition (the other three error
banners are cleared), leaves the table component's state (dataset,
filter, sort) untouched, and produces no download. -/
theorem export_serialize_failure_isolated (st : HomeState) (csvText : String)
    (parseFn : String → Except String (List JSRecord))
    (serializeFn : List JSRecord → Except String String)
    (rows : List JSRecord) (e : String)
    (hpath : st.csvFilePath ≠ "")
    (hparse : parseFn csvText = .ok rows)
    (hser : serializeFn (rows.map sanitizeRowExport) = .error e) :
    (handleExport (.ok csvText) parseFn serializeFn st).1.exportError =
        some "Error generating CSV file for download." ∧
      (handleExport (.ok csvText) parseFn serializeFn st).1.csvError = none ∧
      (handleExport (.ok csvText) parseFn serializeFn st).1.fetchError = none ∧
      (handleExport (.ok csvText) parseFn serializeFn st).1.parseError = none ∧
      (handleExport (.ok csvText) parseFn serializeFn st).1.table = st.table ∧
      (handleExport (.ok csvText) parseFn serializeFn st).2 = none := by
  unfold handleExport
  rw [if_neg hpath]
  simp only [hparse, hser]
  exact ⟨trivial, trivial, trivial, trivial, trivial, trivial⟩

theorem export_serialize_failure_isolated_witness :
    (defaultPathState.csvFilePath ≠ "") ∧
    ((fun _ => (Except.ok [] : Except String (List JSRecord))) "" = Except.ok []) ∧
    ((fun _ => (Except.error "empty data" : Except String String))
        (([] : List JSRecord).map sanitizeRowExport) = Except.error "empty data") ∧
    (handleExport (.ok "") (fun _ => .ok []) (fun _ => .error "empty data")
        defaultPathState).1.exportError =
      some "Error generating CSV file for download." := by
  refine ⟨by decide, rfl, rfl, ?_⟩
  exact (export_serialize_failure_isolated defaultPathState
    "" (fun _ => .ok []) (fun _ => .error "empty data") [] "empty data"
    (by decide) rfl rfl).1

/-- Claim C9 counterexample: with zero rows loaded but the default
(nonempty) CSV path, an export attempt whose fetch fails surfaces a
fetch error and no `SelectionError` - the handler's guard tests the
path, not the loaded row count, so the claimed selection error is not
raised. -/
theorem export_zero_rows_no_selection_error :
    defaultPathState.table.rows = [] ∧
    (handleExport (.error "Network response was not ok: 404")
        (fun _ => .ok []) (fun _ => .ok "") defaultPathState).1.csvError = none ∧
    (handleExport (.error "Network response was not ok: 404")
        (fun _ => .ok []) (fun _ => .ok "") defaultPathState).1.fetchError =
      some "Error fetching CSV file: Network response was not ok: 404" := by
  exact ⟨rfl, by decide, by decide⟩

/-- Claim C9 (amended): the selection guard fires on an empty CSV file
path, not on the loaded row count: when the path is empty, export sets
the selection error "Please upload a CSV file first." and triggers no
download, leaving the table state untouched; a zero-row state with a
nonempty path instead proceeds to fetch and surfaces a fetch, parse or
export error. -/
theorem export_empty_path_selection_error (st : HomeState)
    (fetchRes : Except String String)
    (parseFn : String → Except String (List JSRecord))
    (serializeFn : List JSRecord → Except String String)
    (hpath : st.csvFilePath = "") :
    (handleExport fetchRes parseFn serializeFn st).1.csvError =
        some "Please upload a CSV file first." ∧
      (handleExport fetchRes parseFn serializeFn st).1.table = st.table ∧
      (handleExport fetchRes parseFn serializeFn st).2 = none := by
  unfold handleExport
  rw [if_pos hpath]
  exact ⟨rfl, rfl, rfl⟩

/-! ### Comparator lemmas -/

theorem lcmp_neg_iff (s t : String) : lcmp s t < 0 ↔ s < t := by
  unfold lcmp
  by_cases h1 : s < t
  · simp [h1]
  · by_cases h2 : t < s <;> simp [h1, h2]

theorem lcmp_eq_zero_iff (s t : String) : lcmp s t = 0 ↔ s = t := by
  unfold lcmp
  by_cases h1 : s < t
  · simp only [h1, if_true]
    constructor
    · intro h; exact absurd h (by norm_num)
    · intro h; exact absurd h (ne_of_lt h1)
  · by_cases h2 : t < s
    · simp only [h1, h2, if_false, if_true]
      constructor
      · intro h; exact absurd h (by norm_num)
      · intro h; exact absurd h.symm (ne_of_lt h2)
    · simp only [h1, h2, if_false]
      constructor
      · intro _; exact le_antisymm (not_lt.mp h2) (not_lt.mp h1)
      · intro _; norm_num

theorem compareVals_nullish_left {aVal : JSValue} (bVal : JSValue) (asc : Bool)
    (ha : aVal.isNullish = true) :
    compareVals asc aVal bVal = (if asc then -1 else 1) := by
  simp [compareVals, ha]

theorem compareVals_nullish_right {aVal bVal : JSValue} (asc : Bool)
    (ha : aVal.isNullish = false) (hb : bVal.isNullish = true) :
    compareVals asc aVal bVal = (if asc then 1 else -1) := by
  simp [compareVals, ha, hb]

theorem compareVals_nums (asc : Bool) (x y : ℚ) :
    compareVals asc (.prim (.num x)) (.prim (.num y)) =
      (if asc then x - y else y - x) := by
  simp [compareVals, JSValue.isNullish]

theorem compareVals_dates_valid (asc : Bool) (tx ty : Int) :
    compareVals asc (.date (some tx)) (.date (some ty)) =
      (if asc then (tx : ℚ) - (ty : ℚ) else (ty : ℚ) - (tx : ℚ)) := by
  simp [compareVals, JSValue.isNullish]

theorem compareVals_dates_invalid (asc : Bool) (tx ty : Option Int)
    (h : tx = none ∨ ty = none) :
    compareVals asc (.date tx) (.date ty) =
      (if asc then lcmp (jsToString (.date tx)) (jsToString (.date ty))
       else lcmp (jsToString (.date ty)) (jsToString (.date tx))) := by
  rcases h with h | h
  · subst h
    cases ty <;> simp [compareVals, JSValue.isNullish]
  · subst h
    cases tx <;> simp [compareVals, JSValue.isNullish]

theorem compareVals_catchall (asc : Bool) {va vb : JSValue}
    (ha : va.isNullish = false) (hb : vb.isNullish = false)
    (hn : bothNums va vb = false) (hd : bothDates va vb = false) :
    compareVals asc va vb =
      (if asc then lcmp (jsToString va) (jsToString vb)
       else lcmp (jsToString vb) (jsToString va)) := by
  cases va with
  | prim p =>
      cases vb with
      | prim q =>
          cases p <;> cases q <;>
            simp_all [compareVals, JSValue.isNullish, bothNums, bothDates]
      | arr ys => cases p <;> simp_all [compareVals, JSValue.isNullish, bothNums, bothDates]
      | obj gs => cases p <;> simp_all [compareVals, JSValue.isNullish, bothNums, bothDates]
      | date u => cases p <;> simp_all [compareVals, JSValue.isNullish, bothNums, bothDates]
  | arr xs =>
      cases vb with
      | prim q => cases q <;> simp_all [compareVals, JSValue.isNullish, bothNums, bothDates]
      | arr ys => simp_all [compareVals, JSValue.isNullish, bothNums, bothDates]
      | obj gs => simp_all [compareVals, JSValue.isNullish, bothNums, bothDates]
      | date u => simp_all [compareVals, JSValue.isNullish, bothNums, bothDates]
  | obj fs =>
      cases vb with
      | prim q => cases q <;> simp_all [compareVals, JSValue.isNullish, bothNums, bothDates]
      | arr ys => simp_all [compareVals, JSValue.isNullish, bothNums, bothDates]
      | obj gs => simp_all [compareVals, JSValue.isNullish, bothNums, bothDates]
      | date u => simp_all [compareVals, JSValue.isNullish, bothNums, bothDates]
  | date t =>
      cases vb with
      | prim q => cases q <;> simp_all [compareVals, JSValue.isNullish, bothNums, bothDates]
      | arr ys => simp_all [compareVals, JSValue.isNullish, bothNums, bothDates]
      | obj gs => simp_all [compareVals, JSValue.isNullish, bothNums, bothDates]
      | date u => simp_all [compareVals, JSValue.isNullish, bothNums, bothDates]

/-- Claim C4: the sort comparator orders a null or undefined value
before any present value when ascending and after it when descending;
compares two numbers numerically; compares two valid dates by
timestamp; falls back to comparing both string forms when either date
timestamp is invalid; and otherwise compares the two values as
(locale-)strings via `localeCompare` - whose model's sign is negative
exactly on strictly smaller strings and zero exactly on equal
strings. -/
theorem sort_comparator_branches :
    (∀ (f : String) (asc : Bool) (a b : JSRecord),
      (getVal a f).isNullish = true → (getVal b f).isNullish = false →
        sortCompare (some f) asc a b = (if asc then -1 else 1)) ∧
    (∀ (f : String) (asc : Bool) (a b : JSRecord),
      (getVal a f).isNullish = false → (getVal b f).isNullish = true →
        sortCompare (some f) asc a b = (if asc then 1 else -1)) ∧
    (∀ (f : String) (asc : Bool) (a b : JSRecord) (x y : ℚ),
      getVal a f = .prim (.num x) → getVal b f = .prim (.num y) →
        sortCompare (some f) asc a b = (if asc then x - y else y - x)) ∧
    (∀ (f : String) (asc : Bool) (a b : JSRecord) (tx ty : Int),
      getVal a f = .date (some tx) → getVal b f = .date (some ty) →
        sortCompare (some f) asc a b =
          (if asc then (tx : ℚ) - (ty : ℚ) else (ty : ℚ) - (tx : ℚ))) ∧
    (∀ (f : String) (asc : Bool) (a b : JSRecord) (tx ty : Option Int),
      getVal a f = .date tx → getVal b f = .date ty → tx = none ∨ ty = none →
        sortCompare (some f) asc a b =
          (if asc then lcmp (jsToString (.date tx)) (jsToString (.date ty))
           else lcmp (jsToString (.date ty)) (jsToString (.date tx)))) ∧
    (∀ (f : String) (asc : Bool) (a b : JSRecord),
      (getVal a f).isNullish = false → (getVal b f).isNullish = false →
      bothNums (getVal a f) (getVal b f) = false →
      bothDates (getVal a f) (getVal b f) = false →
        sortCompare (some f) asc a b =
          (if asc then lcmp (jsToString (getVal a f)) (jsToString (getVal b f))
           else lcmp (jsToString (getVal b f)) (jsToString (getVal a f)))) ∧
    (∀ s t : String, (lcmp s t < 0 ↔ s < t) ∧ (lcmp s t = 0 ↔ s = t)) := by
  refine ⟨?_, ?_, ?_, ?_, ?_, ?_, fun s t => ⟨lcmp_neg_iff s t, lcmp_eq_zero_iff s t⟩⟩
  · intro f asc a b ha _hb
    exact compareVals_nullish_left _ asc ha
  · intro f asc a b ha hb
    exact compareVals_nullish_right asc ha hb
  · intro f asc a b x y ha hb
    show compareVals asc (getVal a f) (getVal b f) = _
    rw [ha, hb, compareVals_nums]
  · intro f asc a b tx ty ha hb
    show compareVals asc (getVal a f) (getVal b f) = _
    rw [ha, hb, compareVals_dates_valid]
  · intro f asc a b tx ty ha hb h
    show compareVals asc (getVal a f) (getVal b f) = _
    rw [ha, hb, compareVals_dates_invalid asc tx ty h]
  · intro f asc a b ha hb hn hd
    exact compareVals_catchall asc ha hb hn hd

theorem sort_comparator_branches_witness :
    sortCompare (some "k") true [("k", JSValue.prim .null)]
        [("k", JSValue.prim (.str "x"))] = -1 ∧
    sortCompare (some "k") false [("k", JSValue.prim .null)]
        [("k", JSValue.prim (.str "x"))] = 1 ∧
    sortCompare (some "k") true [("k", JSValue.prim (.num 5))]
        [("k", JSValue.prim (.num 7))] = -2 ∧
    sortCompare (some "k") true [("k", JSValue.date (some 3))]
        [("k", JSValue.date (some 10))] = -7 ∧
    sortCompare (some "k") true [("k", JSValue.date none)]
        [("k", JSValue.date (some 1))] =
      lcmp (jsToString (.date none)) (jsToString (.date (some 1))) ∧
    sortCompare (some "k") true [("k", JSValue.prim (.num 5))]
        [("k", JSValue.prim (.str "2"))] = lcmp "5" "2" := by
  obtain ⟨h1, h2, h3, h4, h5, h6, _⟩ := sort_comparator_branches
  refine ⟨?_, ?_, ?_, ?_, ?_, ?_⟩
  · simpa using h1 "k" true [("k", JSValue.prim .null)]
      [("k", JSValue.prim (.str "x"))] (by decide) (by decide)
  · simpa using h1 "k" false [("k", JSValue.prim .null)]
      [("k", JSValue.prim (.str "x"))] (by decide) (by decide)
  · have := h3 "k" true [("k", JSValue.prim (.num 5))]
      [("k", JSValue.prim (.num 7))] 5 7 (by decide) (by decide)
    rw [this]; norm_num
  · have := h4 "k" true [("k", JSValue.date (some 3))]
      [("k", JSValue.date (some 10))] 3 10 (by decide) (by decide)
    rw [this]; norm_num
  · have := h5 "k" true [("k", JSValue.date none)]
      [("k", JSValue.date (some 1))] none (some 1) (by decide) (by decide)
      (Or.inl rfl)
    simpa using this
  · have := h6 "k" true [("k", JSValue.prim (.num 5))]
      [("k", JSValue.prim (.str "2"))] (by decide) (by decide) (by decide) (by decide)
    rw [this]
    rfl

theorem export_empty_path_selection_error_witness :
    (emptyPathState.csvFilePath = "") ∧
    (handleExport (.ok "") (fun _ => .ok []) (fun _ => .ok "")
        emptyPathState).1.csvError =
      some "Please upload a CSV file first." := by
  refine ⟨rfl, ?_⟩
  exact (export_empty_path_selection_error emptyPathState
    (.ok "") (fun _ => .ok []) (fun _ => .ok "") rfl).1

/-! ### Generic stable-sort lemmas -/

theorem insertBy_perm (le : α → α → Bool) (x : α) (l : List α) :
    (insertBy le x l).Perm (x :: l) := by
  induction l with
  | nil => exact List.Perm.refl _
  | cons y ys ih =>
      by_cases h : le x y = true
      · rw [insertBy, if_pos h]
      · rw [insertBy, if_neg h]
        exact (ih.cons y).trans (List.Perm.swap x y ys)

theorem stableSort_perm (le : α → α → Bool) (l : List α) :
    (stableSort le l).Perm l := by
  induction l with
  | nil => exact List.Perm.refl _
  | cons x xs ih =>
      rw [stableSort]
      exact (insertBy_perm le x (stableSort le xs)).trans (ih.cons x)

theorem mem_insertBy {le : α → α → Bool} {x z : α} {l : List α} :
    z ∈ insertBy le x l ↔ z = x ∨ z ∈ l := by
  rw [(insertBy_perm le x l).mem_iff, List.mem_cons]

theorem mem_stableSort {le : α → α → Bool} {z : α} {l : List α} :
    z ∈ stableSort le l ↔ z ∈ l :=
  (stableSort_perm le l).mem_iff

theorem chain'_insertBy {le : α → α → Bool} {x : α} {l : List α}
    (htot : ∀ a b, le a b = true ∨ le b a = true)
    (hl : List.Chain' (fun a b => le a b = true) l) :
    List.Chain' (fun a b => le a b = true) (insertBy le x l) := by
  induction l with
  | nil => simp [insertBy]
  | cons y ys ih =>
      by_cases h : le x y = true
      · rw [insertBy, if_pos h]
        exact List.Chain'.cons h hl
      · rw [insertBy, if_neg h]
        have hyx : le y x = true := by
          rcases htot x y with h' | h'
          · exact absurd h' h
          · exact h'
        have htail := ih (List.Chain'.tail hl)
        cases ys with
        | nil => exact List.chain'_pair.mpr hyx
        | cons z zs =>
            by_cases hz : le x z = true
            · rw [insertBy, if_pos hz] at htail ⊢
              exact List.Chain'.cons hyx htail
            · rw [insertBy, if_neg hz] at htail ⊢
              exact List.Chain'.cons (List.chain'_cons.mp hl).1 htail

theorem chain'_stableSort {le : α → α → Bool}
    (htot : ∀ a b, le a b = true ∨ le b a = true) (l : List α) :
    List.Chain' (fun a b => le a b = true) (stableSort le l) := by
  induction l with
  | nil => simp [stableSort]
  | cons x xs ih =>
      rw [stableSort]
      exact chain'_insertBy htot ih

theorem stableSort_eq_of_chain' {le : α → α → Bool} {l : List α}
    (hl : List.Chain' (fun a b => le a b = true) l) : stableSort le l = l := by
  induction l with
  | nil => rfl
  | cons x xs ih =>
      rw [stableSort, ih (List.Chain'.tail hl)]
      cases xs with
      | nil => rfl
      | cons y ys =>
          rw [insertBy, if_pos (List.chain'_cons.mp hl).1]

theorem insertBy_map_snd (le : α → α → Bool) (p : Nat × α) (l : List (Nat × α)) :
    (insertBy (fun a b => le a.2 b.2) p l).map Prod.snd =
      insertBy le p.2 (l.map Prod.snd) := by
  induction l with
  | nil => rfl
  | cons q qs ih =>
      by_cases h : le p.2 q.2 = true
      · rw [insertBy, if_pos h, List.map_cons, List.map_cons, insertBy, if_pos h]
      · rw [insertBy, if_neg h, List.map_cons, List.map_cons, insertBy, if_neg h,
          ← ih]

theorem stableSort_map_snd (le : α → α → Bool) (l : List (Nat × α)) :
    (stableSort (fun a b => le a.2 b.2) l).map Prod.snd =
      stableSort le (l.map Prod.snd) := by
  induction l with
  | nil => rfl
  | cons p ps ih =>
      rw [stableSort, List.map_cons, stableSort, insertBy_map_snd, ih]

theorem tagFrom_map_snd (n : Nat) (l : List α) :
    (tagFrom n l).map Prod.snd = l := by
  induction l generalizing n with
  | nil => rfl
  | cons x xs ih => rw [tagFrom, List.map_cons, ih]

theorem mem_tagFrom_le {n : Nat} {l : List α} {p : Nat × α}
    (h : p ∈ tagFrom n l) : n ≤ p.1 := by
  induction l generalizing n with
  | nil => simp [tagFrom] at h
  | cons x xs ih =>
      rw [tagFrom, List.mem_cons] at h
      rcases h with h | h
      · rw [h]
      · exact Nat.le_of_succ_le (ih h)

theorem mem_tagFrom_snd {n : Nat} {l : List α} {p : Nat × α}
    (h : p ∈ tagFrom n l) : p.2 ∈ l := by
  induction l generalizing n with
  | nil => simp [tagFrom] at h
  | cons x xs ih =>
      rw [tagFrom, List.mem_cons] at h
      rcases h with h | h
      · rw [h]; exact List.mem_cons_self _ _
      · exact List.mem_cons_of_mem _ (ih h)

theorem tagFrom_fst_lt (n : Nat) (l : List α) :
    (tagFrom n l).Pairwise (fun p q => p.1 < q.1) := by
  induction l generalizing n with
  | nil => exact List.Pairwise.nil
  | cons x xs ih =>
      rw [tagFrom]
      refine List.Pairwise.cons ?_ (ih (n + 1))
      intro q hq
      exact Nat.lt_of_succ_le (mem_tagFrom_le hq)

theorem tagFrom_nodup (n : Nat) (l : List α) : (tagFrom n l).Nodup :=
  (tagFrom_fst_lt n l).imp (fun h => fun hc => absurd (congrArg Prod.fst hc)
    (Nat.ne_of_lt h))

theorem pairwise_insertBy {le : α → α → Bool} {P : α → α → Prop} {x : α}
    {l : List α}
    (hl : l.Pairwise P)
    (h1 : ∀ y ∈ l, le x y = true → P x y)
    (h2 : ∀ y ∈ l, le x y = false → P y x)
    (htr : ∀ a ∈ l, ∀ b ∈ l, P x a → P a b → P x b) :
    (insertBy le x l).Pairwise P := by
  induction l with
  | nil => simp [insertBy]
  | cons y ys ih =>
      by_cases hxy : le x y = true
      · rw [insertBy, if_pos hxy]
        refine List.Pairwise.cons ?_ hl
        intro z hz
        rcases List.mem_cons.mp hz with hz | hz
        · rw [hz]
          exact h1 y (List.mem_cons_self _ _) hxy
        · exact htr y (List.mem_cons_self _ _) z (List.mem_cons_of_mem _ hz)
            (h1 y (List.mem_cons_self _ _) hxy)
            (List.rel_of_pairwise_cons hl hz)
      · rw [insertBy, if_neg hxy]
        refine List.Pairwise.cons ?_
          (ih hl.tail
            (fun z hz h => h1 z (List.mem_cons_of_mem _ hz) h)
            (fun z hz h => h2 z (List.mem_cons_of_mem _ hz) h)
            (fun a ha b hb => htr a (List.mem_cons_of_mem _ ha) b
              (List.mem_cons_of_mem _ hb)))
        intro z hz
        rcases mem_insertBy.mp hz with hz | hz
        · rw [hz]
          exact h2 y (List.mem_cons_self _ _) (Bool.eq_false_iff.mpr hxy)
        · exact List.rel_of_pairwise_cons hl hz

theorem pairwise_stableSort {le : α → α → Bool} {P : α → α → Prop} :
    ∀ {l : List α},
    l.Pairwise (fun a b => (le a b = true → P a b) ∧ (le a b = false → P b a)) →
    (∀ a ∈ l, ∀ b ∈ l, ∀ c ∈ l, P a b → P b c → P a c) →
    (stableSort le l).Pairwise P := by
  intro l
  induction l with
  | nil => intro _ _; exact List.Pairwise.nil
  | cons x xs ih =>
      intro hcond htr
      rw [stableSort]
      refine pairwise_insertBy (ih hcond.tail ?_) ?_ ?_ ?_
      · intro a ha b hb c hc
        exact htr a (List.mem_cons_of_mem _ ha) b (List.mem_cons_of_mem _ hb)
          c (List.mem_cons_of_mem _ hc)
      · intro y hy h
        exact (List.rel_of_pairwise_cons hcond (mem_stableSort.mp hy)).1 h
      · intro y hy h
        exact (List.rel_of_pairwise_cons hcond (mem_stableSort.mp hy)).2 h
      · intro a ha b hb
        exact htr x (List.mem_cons_self _ _) a
          (List.mem_cons_of_mem _ (mem_stableSort.mp ha)) b
          (List.mem_cons_of_mem _ (mem_stableSort.mp hb))

/-! ### Relative-position lemmas -/

theorem beforeIn_of_pairwise {P : α → α → Prop} {l : List α} {p q : α}
    (hl : l.Pairwise P) (h : beforeIn l p q) : P p q :=
  List.pairwise_iff_forall_sublist.mp hl h

theorem beforeIn_total {l : List α} {p q : α}
    (hp : p ∈ l) (hq : q ∈ l) (hne : p ≠ q) :
    beforeIn l p q ∨ beforeIn l q p := by
  induction l with
  | nil => simp at hp
  | cons x xs ih =>
      rcases List.mem_cons.mp hp with hpx | hpxs
      · have hqxs : q ∈ xs := by
          rcases List.mem_cons.mp hq with hqx | hqxs
          · exact absurd (hpx.trans hqx.symm) hne
          · exact hqxs
        left
        rw [beforeIn, hpx]
        exact (List.singleton_sublist.mpr hqxs).cons₂ x
      · rcases List.mem_cons.mp hq with hqx | hqxs
        · right
          rw [beforeIn, hqx]
          exact (List.singleton_sublist.mpr hpxs).cons₂ x
        · rcases ih hpxs hqxs with h | h
          · exact Or.inl (h.cons x)
          · exact Or.inr (h.cons x)

theorem not_beforeIn_self {l : List α} {p : α} (hl : l.Nodup) :
    ¬ beforeIn l p p := by
  intro h
  have := h.nodup hl
  simp at this

/-! ### Comparator sign lemmas -/

theorem lcmp_eval_lt {s t : String} (h : s < t) : lcmp s t = -1 := by
  unfold lcmp
  rw [if_pos h]

theorem lcmp_eval_gt {s t : String} (h : t < s) : lcmp s t = 1 := by
  unfold lcmp
  rw [if_neg (asymm h), if_pos h]

theorem lcmp_eval_eq {s t : String} (h : s = t) : lcmp s t = 0 := by
  subst h
  unfold lcmp
  rw [if_neg (lt_irrefl s), if_neg (lt_irrefl s)]

theorem lcmp_swap (s t : String) : lcmp t s = -lcmp s t := by
  rcases lt_trichotomy s t with h | h | h
  · rw [lcmp_eval_gt h, lcmp_eval_lt h]
    norm_num
  · rw [lcmp_eval_eq h.symm, lcmp_eval_eq h]
    norm_num
  · rw [lcmp_eval_lt h, lcmp_eval_gt h]

theorem lcmp_total (s t : String) : lcmp s t ≤ 0 ∨ lcmp t s ≤ 0 := by
  rcases lt_trichotomy s t with h | h | h
  · left; rw [lcmp_eval_lt h]; norm_num
  · left; rw [lcmp_eval_eq h]
  · right; rw [lcmp_eval_lt h]; norm_num

theorem lcmp_pos_iff (s t : String) : 0 < lcmp s t ↔ t < s := by
  rcases lt_trichotomy s t with h | h | h
  · rw [lcmp_eval_lt h]
    constructor
    · intro hc; exact absurd hc (by norm_num)
    · intro hc; exact absurd hc (asymm h)
  · rw [lcmp_eval_eq h]
    constructor
    · intro hc; exact absurd hc (by norm_num)
    · intro hc; exact absurd hc (by rw [h]; exact lt_irrefl t)
  · rw [lcmp_eval_gt h]
    exact ⟨fun _ => h, fun _ => by norm_num⟩

theorem bothNums_eq_true_iff {va vb : JSValue} :
    bothNums va vb = true ↔
      ∃ x y, va = JSValue.prim (.num x) ∧ vb = JSValue.prim (.num y) := by
  cases va with
  | prim p =>
      cases vb with
      | prim q => cases p <;> cases q <;> simp [bothNums]
      | arr ys => cases p <;> simp [bothNums]
      | obj gs => cases p <;> simp [bothNums]
      | date u => cases p <;> simp [bothNums]
  | arr xs => cases vb <;> simp [bothNums]
  | obj fs => cases vb <;> simp [bothNums]
  | date t => cases vb <;> simp [bothNums]

theorem bothDates_eq_true_iff {va vb : JSValue} :
    bothDates va vb = true ↔
      ∃ tx ty, va = JSValue.date tx ∧ vb = JSValue.date ty := by
  cases va with
  | prim p => cases vb <;> cases p <;> simp [bothDates]
  | arr xs => cases vb <;> simp [bothDates]
  | obj fs => cases vb <;> simp [bothDates]
  | date t => cases vb <;> simp [bothDates]

theorem bothNums_comm (va vb : JSValue) : bothNums va vb = bothNums vb va := by
  cases va with
  | prim p =>
      cases vb with
      | prim q => cases p <;> cases q <;> rfl
      | arr ys => cases p <;> rfl
      | obj gs => cases p <;> rfl
      | date u => cases p <;> rfl
  | arr xs => cases vb with
      | prim q => cases q <;> rfl
      | arr ys => rfl
      | obj gs => rfl
      | date u => rfl
  | obj fs => cases vb with
      | prim q => cases q <;> rfl
      | arr ys => rfl
      | obj gs => rfl
      | date u => rfl
  | date t => cases vb with
      | prim q => cases q <;> rfl
      | arr ys => rfl
      | obj gs => rfl
      | date u => rfl

theorem bothDates_comm (va vb : JSValue) : bothDates va vb = bothDates vb va := by
  cases va with
  | prim p => cases vb with
      | prim q => cases p <;> cases q <;> rfl
      | arr ys => cases p <;> rfl
      | obj gs => cases p <;> rfl
      | date u => cases p <;> rfl
  | arr xs => cases vb with
      | prim q => cases q <;> rfl
      | arr ys => rfl
      | obj gs => rfl
      | date u => rfl
  | obj fs => cases vb with
      | prim q => cases q <;> rfl
      | arr ys => rfl
      | obj gs => rfl
      | date u => rfl
  | date t => cases vb with
      | prim q => cases q <;> rfl
      | arr ys => rfl
      | obj gs => rfl
      | date u => rfl

/-- The descending comparator is the exact negation of the ascending
one, in every branch. -/
theorem compareVals_desc_neg (va vb : JSValue) :
    compareVals false va vb = - compareVals true va vb := by
  by_cases ha : va.isNullish = true
  · rw [compareVals_nullish_left vb false ha, compareVals_nullish_left vb true ha]
    norm_num
  · by_cases hb : vb.isNullish = true
    · rw [compareVals_nullish_right false (Bool.eq_false_iff.mpr ha) hb,
        compareVals_nullish_right true (Bool.eq_false_iff.mpr ha) hb]
      norm_num
    · by_cases hn : bothNums va vb = true
      · obtain ⟨x, y, hx, hy⟩ := bothNums_eq_true_iff.mp hn
        subst hx; subst hy
        rw [compareVals_nums, compareVals_nums]
        show y - x = -(x - y)
        ring
      · by_cases hd : bothDates va vb = true
        · obtain ⟨tx, ty, hx, hy⟩ := bothDates_eq_true_iff.mp hd
          subst hx; subst hy
          cases tx with
          | some x =>
              cases ty with
              | some y =>
                  rw [compareVals_dates_valid, compareVals_dates_valid]
                  show (y : ℚ) - (x : ℚ) = -((x : ℚ) - (y : ℚ))
                  ring
              | none =>
                  rw [compareVals_dates_invalid false _ _ (Or.inr rfl),
                    compareVals_dates_invalid true _ _ (Or.inr rfl)]
                  exact lcmp_swap _ _
          | none =>
              rw [compareVals_dates_invalid false _ _ (Or.inl rfl),
                compareVals_dates_invalid true _ _ (Or.inl rfl)]
              exact lcmp_swap _ _
        · rw [compareVals_catchall false (Bool.eq_false_iff.mpr ha)
            (Bool.eq_false_iff.mpr hb) (Bool.eq_false_iff.mpr hn)
            (Bool.eq_false_iff.mpr hd),
            compareVals_catchall true (Bool.eq_false_iff.mpr ha)
            (Bool.eq_false_iff.mpr hb) (Bool.eq_false_iff.mpr hn)
            (Bool.eq_false_iff.mpr hd)]
          exact lcmp_swap _ _

/-- The ascending comparator is total as a weak order: for any two
values, one direction compares at most zero. -/
theorem compareVals_asc_total (va vb : JSValue) :
    compareVals true va vb ≤ 0 ∨ compareVals true vb va ≤ 0 := by
  by_cases ha : va.isNullish = true
  · left
    rw [compareVals_nullish_left vb true ha]
    norm_num
  · by_cases hb : vb.isNullish = true
    · right
      rw [compareVals_nullish_left va true hb]
      norm_num
    · by_cases hn : bothNums va vb = true
      · obtain ⟨x, y, hx, hy⟩ := bothNums_eq_true_iff.mp hn
        subst hx; subst hy
        rw [compareVals_nums, compareVals_nums]
        show x - y ≤ 0 ∨ y - x ≤ 0
        rcases le_total x y with h | h
        · left; linarith
        · right; linarith
      · by_cases hd : bothDates va vb = true
        · obtain ⟨tx, ty, hx, hy⟩ := bothDates_eq_true_iff.mp hd
          subst hx; subst hy
          cases tx with
          | some x =>
              cases ty with
              | some y =>
                  rw [compareVals_dates_valid, compareVals_dates_valid]
                  show (x : ℚ) - (y : ℚ) ≤ 0 ∨ (y : ℚ) - (x : ℚ) ≤ 0
                  rcases le_total (x : ℚ) (y : ℚ) with h | h
                  · left; linarith
                  · right; linarith
              | none =>
                  rw [compareVals_dates_invalid true _ _ (Or.inr rfl),
                    compareVals_dates_invalid true _ _ (Or.inl rfl)]
                  exact lcmp_total _ _
          | none =>
              rw [compareVals_dates_invalid true _ _ (Or.inl rfl),
                compareVals_dates_invalid true _ _ (Or.inr rfl)]
              exact lcmp_total _ _
        · have hn2 : bothNums vb va = false := by
            rw [bothNums_comm]; exact Bool.eq_false_iff.mpr hn
          have hd2 : bothDates vb va = false := by
            rw [bothDates_comm]; exact Bool.eq_false_iff.mpr hd
          rw [compareVals_catchall true (Bool.eq_false_iff.mpr ha)
            (Bool.eq_false_iff.mpr hb) (Bool.eq_false_iff.mpr hn)
            (Bool.eq_false_iff.mpr hd),
            compareVals_catchall true (Bool.eq_false_iff.mpr hb)
            (Bool.eq_false_iff.mpr ha) hn2 hd2]
          exact lcmp_total _ _

/-- The comparator that `sortedData` hands to the sort, as a boolean
relation, is total. -/
theorem sortLe_total (field : Option String) (a b : JSRecord) :
    decide (sortCompare field true a b ≤ 0) = true ∨
      decide (sortCompare field true b a ≤ 0) = true := by
  cases field with
  | none => left; simp [sortCompare]
  | some f =>
      simp only [decide_eq_true_eq]
      exact compareVals_asc_total (getVal a f) (getVal b f)

/-! ### Sort-key lemmas on sanitized datasets -/

theorem sortKeyScalar_cases {f : String} {r : JSRecord}
    (h : sortKeyScalar f r = true) :
    getVal r f = JSValue.prim .null ∨ getVal r f = JSValue.prim .undefined ∨
      ∃ s, getVal r f = JSValue.prim (.str s) := by
  unfold sortKeyScalar at h
  rcases hv : getVal r f with p | xs | fs | t
  · rw [hv] at h
    cases p with
    | null => exact Or.inl rfl
    | undefined => exact Or.inr (Or.inl rfl)
    | str s => exact Or.inr (Or.inr ⟨s, rfl⟩)
    | bool b => simp at h
    | num q => simp at h
    | func n => simp at h
  · rw [hv] at h; simp at h
  · rw [hv] at h; simp at h
  · rw [hv] at h; simp at h

theorem cmpA_eq_keyCmp {f : String} {p q : Nat × JSRecord}
    (hp : sortKeyScalar f p.2 = true) (hq : sortKeyScalar f q.2 = true) :
    cmpA f p q = keyCmp (keyOf f p.2) (keyOf f q.2) := by
  have hcv : cmpA f p q = compareVals true (getVal p.2 f) (getVal q.2 f) := rfl
  rcases sortKeyScalar_cases hp with h1 | h1 | ⟨s, h1⟩ <;>
    rcases sortKeyScalar_cases hq with h2 | h2 | ⟨t, h2⟩ <;>
      rw [hcv, h1, h2] <;> simp only [keyOf, h1, h2]
  · exact compareVals_nullish_left _ true rfl
  · exact compareVals_nullish_left _ true rfl
  · exact compareVals_nullish_left _ true rfl
  · exact compareVals_nullish_left _ true rfl
  · exact compareVals_nullish_left _ true rfl
  · exact compareVals_nullish_left _ true rfl
  · exact compareVals_nullish_right true rfl rfl
  · exact compareVals_nullish_right true rfl rfl
  · exact compareVals_catchall true rfl rfl rfl rfl

theorem keyCmp_zero_symm {a b : Option String} (h : keyCmp a b = 0) :
    keyCmp b a = 0 := by
  cases a with
  | none => simp [keyCmp] at h
  | some s =>
      cases b with
      | none => simp [keyCmp] at h
      | some t =>
          simp only [keyCmp] at h ⊢
          rw [lcmp_eval_eq (lcmp_eq_zero_iff s t |>.mp h).symm]

theorem keyCmp_pos_neg {a b : Option String} (h : 0 < keyCmp a b) :
    keyCmp b a < 0 := by
  cases a with
  | none => simp only [keyCmp] at h; exact absurd h (by norm_num)
  | some s =>
      cases b with
      | none => simp [keyCmp]
      | some t =>
          simp only [keyCmp] at h ⊢
          rw [lcmp_eval_lt ((lcmp_pos_iff s t).mp h)]
          norm_num

theorem cmpA_zero_symm {f : String} {p q : Nat × JSRecord}
    (hp : sortKeyScalar f p.2 = true) (hq : sortKeyScalar f q.2 = true)
    (h : cmpA f p q = 0) : cmpA f q p = 0 := by
  rw [cmpA_eq_keyCmp hq hp]
  rw [cmpA_eq_keyCmp hp hq] at h
  exact keyCmp_zero_symm h

theorem cmpA_pos_neg {f : String} {p q : Nat × JSRecord}
    (hp : sortKeyScalar f p.2 = true) (hq : sortKeyScalar f q.2 = true)
    (h : 0 < cmpA f p q) : cmpA f q p < 0 := by
  rw [cmpA_eq_keyCmp hq hp]
  rw [cmpA_eq_keyCmp hp hq] at h
  exact keyCmp_pos_neg h

theorem sortCompare_desc_neg (f : String) (a b : JSRecord) :
    sortCompare (some f) false a b = - sortCompare (some f) true a b :=
  compareVals_desc_neg (getVal a f) (getVal b f)

/-! ### The orders realised by the ascending and descending sorts -/

theorem lcmp_nonpos_iff (s t : String) : lcmp s t ≤ 0 ↔ ¬ t < s := by
  rcases lt_trichotomy s t with h | h | h
  · rw [lcmp_eval_lt h]
    exact ⟨fun _ => asymm h, fun _ => by norm_num⟩
  · rw [lcmp_eval_eq h]
    exact ⟨fun _ hc => absurd hc (by rw [h]; exact lt_irrefl t),
      fun _ => le_refl 0⟩
  · rw [lcmp_eval_gt h]
    exact ⟨fun hc => absurd hc (by norm_num), fun hc => absurd h hc⟩

/-- The ascending realised order on keyed, position-tagged elements is
transitive. -/
theorem keyOrdA_trans {a b c : Option String} {i j k : Nat}
    (h1 : (keyCmp a b < 0 ∧ 0 < keyCmp b a) ∨
      (keyCmp a b ≤ 0 ∧ keyCmp b a ≤ 0 ∧ i < j))
    (h2 : (keyCmp b c < 0 ∧ 0 < keyCmp c b) ∨
      (keyCmp b c ≤ 0 ∧ keyCmp c b ≤ 0 ∧ j < k)) :
    (keyCmp a c < 0 ∧ 0 < keyCmp c a) ∨
      (keyCmp a c ≤ 0 ∧ keyCmp c a ≤ 0 ∧ i < k) := by
  rcases a with _ | s1 <;> rcases b with _ | s2 <;> rcases c with _ | s3
  · -- none none none
    simp only [keyCmp] at h1 h2 ⊢
    have hij : i < j := by
      rcases h1 with ⟨_, habs⟩ | ⟨_, _, hij⟩
      · exact absurd habs (by norm_num)
      · exact hij
    have hjk : j < k := by
      rcases h2 with ⟨_, habs⟩ | ⟨_, _, hjk⟩
      · exact absurd habs (by norm_num)
      · exact hjk
    exact Or.inr ⟨by norm_num, by norm_num, lt_trans hij hjk⟩
  · -- none none some
    simp only [keyCmp]
    exact Or.inl ⟨by norm_num, by norm_num⟩
  · -- none some none
    simp only [keyCmp] at h2
    rcases h2 with ⟨habs, _⟩ | ⟨habs, _, _⟩
    · exact absurd habs (by norm_num)
    · exact absurd habs (by norm_num)
  · -- none some some
    simp only [keyCmp]
    exact Or.inl ⟨by norm_num, by norm_num⟩
  · -- some none none
    simp only [keyCmp] at h1
    rcases h1 with ⟨habs, _⟩ | ⟨habs, _, _⟩
    · exact absurd habs (by norm_num)
    · exact absurd habs (by norm_num)
  · -- some none some
    simp only [keyCmp] at h1
    rcases h1 with ⟨habs, _⟩ | ⟨habs, _, _⟩
    · exact absurd habs (by norm_num)
    · exact absurd habs (by norm_num)
  · -- some some none
    simp only [keyCmp] at h2
    rcases h2 with ⟨habs, _⟩ | ⟨habs, _, _⟩
    · exact absurd habs (by norm_num)
    · exact absurd habs (by norm_num)
  · -- some some some
    simp only [keyCmp] at h1 h2 ⊢
    have h1' : s1 < s2 ∨ (s1 = s2 ∧ i < j) := by
      rcases h1 with ⟨hlt, _⟩ | ⟨hab, hba, hij⟩
      · exact Or.inl ((lcmp_neg_iff s1 s2).mp hlt)
      · have hns : ¬ s2 < s1 := (lcmp_nonpos_iff s1 s2).mp hab
        have hns' : ¬ s1 < s2 := (lcmp_nonpos_iff s2 s1).mp hba
        rcases lt_trichotomy s1 s2 with h | h | h
        · exact absurd h hns'
        · exact Or.inr ⟨h, hij⟩
        · exact absurd h hns
    have h2' : s2 < s3 ∨ (s2 = s3 ∧ j < k) := by
      rcases h2 with ⟨hlt, _⟩ | ⟨hab, hba, hjk⟩
      · exact Or.inl ((lcmp_neg_iff s2 s3).mp hlt)
      · have hns : ¬ s3 < s2 := (lcmp_nonpos_iff s2 s3).mp hab
        have hns' : ¬ s2 < s3 := (lcmp_nonpos_iff s3 s2).mp hba
        rcases lt_trichotomy s2 s3 with h | h | h
        · exact absurd h hns'
        · exact Or.inr ⟨h, hjk⟩
        · exact absurd h hns
    rcases h1' with h1' | ⟨he1, hi1⟩
    · rcases h2' with h2' | ⟨he2, _⟩
      · refine Or.inl ⟨(lcmp_neg_iff s1 s3).mpr (lt_trans h1' h2'), ?_⟩
        rw [lcmp_pos_iff]
        exact lt_trans h1' h2'
      · subst he2
        refine Or.inl ⟨(lcmp_neg_iff s1 s2).mpr h1', ?_⟩
        rw [lcmp_pos_iff]
        exact h1'
    · subst he1
      rcases h2' with h2' | ⟨he2, hi2⟩
      · refine Or.inl ⟨(lcmp_neg_iff s1 s3).mpr h2', ?_⟩
        rw [lcmp_pos_iff]
        exact h2'
      · subst he2
        exact Or.inr ⟨by rw [lcmp_eval_eq rfl], by rw [lcmp_eval_eq rfl],
          lt_trans hi1 hi2⟩

/-- The descending realised order on keyed, position-tagged elements is
transitive. -/
theorem keyOrdD_trans {a b c : Option String} {i j k : Nat}
    (h1 : (0 < keyCmp a b ∧ keyCmp b a < 0) ∨
      (keyCmp a b = 0 ∧ keyCmp b a = 0 ∧ i < j) ∨
        (keyCmp a b < 0 ∧ keyCmp b a < 0 ∧ j < i))
    (h2 : (0 < keyCmp b c ∧ keyCmp c b < 0) ∨
      (keyCmp b c = 0 ∧ keyCmp c b = 0 ∧ j < k) ∨
        (keyCmp b c < 0 ∧ keyCmp c b < 0 ∧ k < j)) :
    (0 < keyCmp a c ∧ keyCmp c a < 0) ∨
      (keyCmp a c = 0 ∧ keyCmp c a = 0 ∧ i < k) ∨
        (keyCmp a c < 0 ∧ keyCmp c a < 0 ∧ k < i) := by
  rcases a with _ | s1 <;> rcases b with _ | s2 <;> rcases c with _ | s3
  · -- none none none
    simp only [keyCmp] at h1 h2 ⊢
    have hji : j < i := by
      rcases h1 with ⟨habs, _⟩ | ⟨habs, _, _⟩ | ⟨_, _, hji⟩
      · exact absurd habs (by norm_num)
      · exact absurd habs (by norm_num)
      · exact hji
    have hkj : k < j := by
      rcases h2 with ⟨habs, _⟩ | ⟨habs, _, _⟩ | ⟨_, _, hkj⟩
      · exact absurd habs (by norm_num)
      · exact absurd habs (by norm_num)
      · exact hkj
    exact Or.inr (Or.inr ⟨by norm_num, by norm_num, lt_trans hkj hji⟩)
  · -- none none some
    simp only [keyCmp] at h2
    rcases h2 with ⟨habs, _⟩ | ⟨habs, _, _⟩ | ⟨_, habs, _⟩
    · exact absurd habs (by norm_num)
    · exact absurd habs (by norm_num)
    · exact absurd habs (by norm_num)
  · -- none some none
    simp only [keyCmp] at h1
    rcases h1 with ⟨habs, _⟩ | ⟨habs, _, _⟩ | ⟨_, habs, _⟩
    · exact absurd habs (by norm_num)
    · exact absurd habs (by norm_num)
    · exact absurd habs (by norm_num)
  · -- none some some
    simp only [keyCmp] at h1
    rcases h1 with ⟨habs, _⟩ | ⟨habs, _, _⟩ | ⟨_, habs, _⟩
    · exact absurd habs (by norm_num)
    · exact absurd habs (by norm_num)
    · exact absurd habs (by norm_num)
  · -- some none none
    simp only [keyCmp]
    exact Or.inl ⟨by norm_num, by norm_num⟩
  · -- some none some
    simp only [keyCmp] at h2
    rcases h2 with ⟨habs, _⟩ | ⟨habs, _, _⟩ | ⟨_, habs, _⟩
    · exact absurd habs (by norm_num)
    · exact absurd habs (by norm_num)
    · exact absurd habs (by norm_num)
  · -- some some none
    simp only [keyCmp]
    exact Or.inl ⟨by norm_num, by norm_num⟩
  · -- some some some
    simp only [keyCmp] at h1 h2 ⊢
    have h1' : s2 < s1 ∨ (s1 = s2 ∧ i < j) := by
      rcases h1 with ⟨hpos, _⟩ | ⟨hz, _, hij⟩ | ⟨hn1, hn2, _⟩
      · exact Or.inl ((lcmp_pos_iff s1 s2).mp hpos)
      · exact Or.inr ⟨(lcmp_eq_zero_iff s1 s2).mp hz, hij⟩
      · have := (lcmp_neg_iff s1 s2).mp hn1
        have := (lcmp_neg_iff s2 s1).mp hn2
        exact absurd (lt_trans ‹s1 < s2› ‹s2 < s1›) (lt_irrefl s1)
    have h2' : s3 < s2 ∨ (s2 = s3 ∧ j < k) := by
      rcases h2 with ⟨hpos, _⟩ | ⟨hz, _, hjk⟩ | ⟨hn1, hn2, _⟩
      · exact Or.inl ((lcmp_pos_iff s2 s3).mp hpos)
      · exact Or.inr ⟨(lcmp_eq_zero_iff s2 s3).mp hz, hjk⟩
      · have := (lcmp_neg_iff s2 s3).mp hn1
        have := (lcmp_neg_iff s3 s2).mp hn2
        exact absurd (lt_trans ‹s2 < s3› ‹s3 < s2›) (lt_irrefl s2)
    rcases h1' with h1' | ⟨he1, hi1⟩
    · rcases h2' with h2' | ⟨he2, _⟩
      · refine Or.inl ⟨?_, ?_⟩
        · rw [lcmp_pos_iff]
          exact lt_trans h2' h1'
        · rw [lcmp_neg_iff]
          exact lt_trans h2' h1'
      · subst he2
        exact Or.inl ⟨by rw [lcmp_pos_iff]; exact h1',
          by rw [lcmp_neg_iff]; exact h1'⟩
    · subst he1
      rcases h2' with h2' | ⟨he2, hi2⟩
      · exact Or.inl ⟨by rw [lcmp_pos_iff]; exact h2',
          by rw [lcmp_neg_iff]; exact h2'⟩
      · subst he2
        exact Or.inr (Or.inl ⟨lcmp_eval_eq rfl, lcmp_eval_eq rfl,
          lt_trans hi1 hi2⟩)

theorem ordAsc_trans {f : String} {p q r : Nat × JSRecord}
    (hp : sortKeyScalar f p.2 = true) (hq : sortKeyScalar f q.2 = true)
    (hr : sortKeyScalar f r.2 = true)
    (h1 : ordAsc f p q) (h2 : ordAsc f q r) : ordAsc f p r := by
  unfold ordAsc at h1 h2 ⊢
  rw [cmpA_eq_keyCmp hp hq, cmpA_eq_keyCmp hq hp] at h1
  rw [cmpA_eq_keyCmp hq hr, cmpA_eq_keyCmp hr hq] at h2
  rw [cmpA_eq_keyCmp hp hr, cmpA_eq_keyCmp hr hp]
  exact keyOrdA_trans h1 h2

theorem ordDesc_trans {f : String} {p q r : Nat × JSRecord}
    (hp : sortKeyScalar f p.2 = true) (hq : sortKeyScalar f q.2 = true)
    (hr : sortKeyScalar f r.2 = true)
    (h1 : ordDesc f p q) (h2 : ordDesc f q r) : ordDesc f p r := by
  unfold ordDesc at h1 h2 ⊢
  rw [cmpA_eq_keyCmp hp hq, cmpA_eq_keyCmp hq hp] at h1
  rw [cmpA_eq_keyCmp hq hr, cmpA_eq_keyCmp hr hq] at h2
  rw [cmpA_eq_keyCmp hp hr, cmpA_eq_keyCmp hr hp]
  exact keyOrdD_trans h1 h2

theorem ordAsc_antisymm {f : String} {p q : Nat × JSRecord}
    (h1 : ordAsc f p q) (h2 : ordAsc f q p) : False := by
  unfold ordAsc at h1 h2
  rcases h1 with ⟨ha1, ha2⟩ | ⟨ha1, ha2, ha3⟩ <;>
    rcases h2 with ⟨hb1, hb2⟩ | ⟨hb1, hb2, hb3⟩
  · linarith
  · linarith
  · linarith
  · exact absurd (lt_trans ha3 hb3) (lt_irrefl p.1)

theorem ordDesc_antisymm {f : String} {p q : Nat × JSRecord}
    (h1 : ordDesc f p q) (h2 : ordDesc f q p) : False := by
  unfold ordDesc at h1 h2
  rcases h1 with ⟨ha1, ha2⟩ | ⟨ha1, ha2, ha3⟩ | ⟨ha1, ha2, ha3⟩ <;>
    rcases h2 with ⟨hb1, hb2⟩ | ⟨hb1, hb2, hb3⟩ | ⟨hb1, hb2, hb3⟩
  · linarith
  · linarith
  · linarith
  · linarith
  · exact absurd (lt_trans ha3 hb3) (lt_irrefl p.1)
  · linarith
  · linarith
  · linarith
  · exact absurd (lt_trans ha3 hb3) (lt_irrefl q.1)

theorem ordAsc_total {f : String} {p q : Nat × JSRecord}
    (hp : sortKeyScalar f p.2 = true) (hq : sortKeyScalar f q.2 = true)
    (hij : p.1 ≠ q.1) : ordAsc f p q ∨ ordAsc f q p := by
  unfold ordAsc
  rw [cmpA_eq_keyCmp hp hq, cmpA_eq_keyCmp hq hp]
  rcases hk : keyOf f p.2 with _ | s1 <;> rcases hk2 : keyOf f q.2 with _ | s2
  · simp only [keyCmp]
    rcases Nat.lt_or_ge p.1 q.1 with h | h
    · exact Or.inl (Or.inr ⟨by norm_num, by norm_num, h⟩)
    · exact Or.inr (Or.inr ⟨by norm_num, by norm_num,
        Nat.lt_of_le_of_ne h (Ne.symm hij)⟩)
  · simp only [keyCmp]
    exact Or.inl (Or.inl ⟨by norm_num, by norm_num⟩)
  · simp only [keyCmp]
    exact Or.inr (Or.inl ⟨by norm_num, by norm_num⟩)
  · simp only [keyCmp]
    rcases lt_trichotomy s1 s2 with h | h | h
    · exact Or.inl (Or.inl ⟨(lcmp_neg_iff s1 s2).mpr h,
        (lcmp_pos_iff s2 s1).mpr h⟩)
    · subst h
      rcases Nat.lt_or_ge p.1 q.1 with h | h
      · exact Or.inl (Or.inr ⟨by rw [lcmp_eval_eq rfl],
          by rw [lcmp_eval_eq rfl], h⟩)
      · exact Or.inr (Or.inr ⟨by rw [lcmp_eval_eq rfl],
          by rw [lcmp_eval_eq rfl], Nat.lt_of_le_of_ne h (Ne.symm hij)⟩)
    · exact Or.inr (Or.inl ⟨(lcmp_neg_iff s2 s1).mpr h,
        (lcmp_pos_iff s1 s2).mpr h⟩)

theorem ordDesc_total {f : String} {p q : Nat × JSRecord}
    (hp : sortKeyScalar f p.2 = true) (hq : sortKeyScalar f q.2 = true)
    (hij : p.1 ≠ q.1) : ordDesc f p q ∨ ordDesc f q p := by
  unfold ordDesc
  rw [cmpA_eq_keyCmp hp hq, cmpA_eq_keyCmp hq hp]
  rcases hk : keyOf f p.2 with _ | s1 <;> rcases hk2 : keyOf f q.2 with _ | s2
  · simp only [keyCmp]
    rcases Nat.lt_or_ge p.1 q.1 with h | h
    · exact Or.inr (Or.inr (Or.inr ⟨by norm_num, by norm_num, h⟩))
    · exact Or.inl (Or.inr (Or.inr ⟨by norm_num, by norm_num,
        Nat.lt_of_le_of_ne h (Ne.symm hij)⟩))
  · simp only [keyCmp]
    exact Or.inr (Or.inl ⟨by norm_num, by norm_num⟩)
  · simp only [keyCmp]
    exact Or.inl (Or.inl ⟨by norm_num, by norm_num⟩)
  · simp only [keyCmp]
    rcases lt_trichotomy s1 s2 with h | h | h
    · exact Or.inr (Or.inl ⟨(lcmp_pos_iff s2 s1).mpr h,
        (lcmp_neg_iff s1 s2).mpr h⟩)
    · subst h
      rcases Nat.lt_or_ge p.1 q.1 with h | h
      · exact Or.inl (Or.inr (Or.inl ⟨lcmp_eval_eq rfl, lcmp_eval_eq rfl, h⟩))
      · exact Or.inr (Or.inr (Or.inl ⟨lcmp_eval_eq rfl, lcmp_eval_eq rfl,
          Nat.lt_of_le_of_ne h (Ne.symm hij)⟩))
    · exact Or.inl (Or.inl ⟨(lcmp_pos_iff s1 s2).mpr h,
        (lcmp_neg_iff s2 s1).mpr h⟩)

/-! ### The sorted outputs satisfy the realised orders -/

theorem pairwise_ordAsc (f : String) (rows : List JSRecord)
    (hs : ∀ r ∈ rows, sortKeyScalar f r = true) :
    (stableSort (fun a b => decide (sortCompare (some f) true a.2 b.2 ≤ 0))
      (tagFrom 0 rows)).Pairwise (ordAsc f) := by
  apply pairwise_stableSort
  · refine List.Pairwise.imp_of_mem ?_ (tagFrom_fst_lt 0 rows)
    intro p q hp hq hlt
    have hps : sortKeyScalar f p.2 = true := hs _ (mem_tagFrom_snd hp)
    have hqs : sortKeyScalar f q.2 = true := hs _ (mem_tagFrom_snd hq)
    constructor
    · intro hle
      have hle' : cmpA f p q ≤ 0 := of_decide_eq_true hle
      rcases lt_or_eq_of_le hle' with hlt0 | heq0
      · rcases le_or_lt (cmpA f q p) 0 with hrev | hrev
        · exact Or.inr ⟨le_of_lt hlt0, hrev, hlt⟩
        · exact Or.inl ⟨hlt0, hrev⟩
      · have hz : cmpA f q p = 0 := cmpA_zero_symm hps hqs heq0
        exact Or.inr ⟨le_of_eq heq0, le_of_eq hz, hlt⟩
    · intro hle
      have hpos : 0 < cmpA f p q :=
        lt_of_not_le (of_decide_eq_false hle)
      exact Or.inl ⟨cmpA_pos_neg hps hqs hpos, hpos⟩
  · intro a ha b hb c hc h1 h2
    exact ordAsc_trans (hs _ (mem_tagFrom_snd ha)) (hs _ (mem_tagFrom_snd hb))
      (hs _ (mem_tagFrom_snd hc)) h1 h2

theorem pairwise_ordDesc (f : String) (rows : List JSRecord)
    (hs : ∀ r ∈ rows, sortKeyScalar f r = true) :
    (stableSort (fun a b => decide (sortCompare (some f) false a.2 b.2 ≤ 0))
      (tagFrom 0 rows)).Pairwise (ordDesc f) := by
  apply pairwise_stableSort
  · refine List.Pairwise.imp_of_mem ?_ (tagFrom_fst_lt 0 rows)
    intro p q hp hq hlt
    have hps : sortKeyScalar f p.2 = true := hs _ (mem_tagFrom_snd hp)
    have hqs : sortKeyScalar f q.2 = true := hs _ (mem_tagFrom_snd hq)
    constructor
    · intro hle
      have hle' : sortCompare (some f) false p.2 q.2 ≤ 0 := of_decide_eq_true hle
      rw [sortCompare_desc_neg] at hle'
      have hge : 0 ≤ cmpA f p q := by
        have : - cmpA f p q ≤ 0 := hle'
        linarith
      rcases lt_or_eq_of_le hge with hpos | heq0
      · exact Or.inl ⟨hpos, cmpA_pos_neg hps hqs hpos⟩
      · exact Or.inr (Or.inl ⟨heq0.symm,
          cmpA_zero_symm hps hqs heq0.symm, hlt⟩)
    · intro hle
      have hneg : cmpA f p q < 0 := by
        have h1 : ¬ sortCompare (some f) false p.2 q.2 ≤ 0 :=
          of_decide_eq_false hle
        rw [sortCompare_desc_neg] at h1
        have : 0 < - cmpA f p q := lt_of_not_le h1
        linarith
      rcases lt_trichotomy (cmpA f q p) 0 with h | h | h
      · exact Or.inr (Or.inr ⟨h, hneg, hlt⟩)
      · exact absurd (cmpA_zero_symm hqs hps h) (ne_of_lt hneg)
      · exact Or.inl ⟨h, hneg⟩
  · intro a ha b hb c hc h1 h2
    exact ordDesc_trans (hs _ (mem_tagFrom_snd ha)) (hs _ (mem_tagFrom_snd hb))
      (hs _ (mem_tagFrom_snd hc)) h1 h2

theorem tagged_eq_of_fst_eq {n : Nat} {l : List α} {p q : Nat × α}
    (hp : p ∈ tagFrom n l) (hq : q ∈ tagFrom n l) (h : p.1 = q.1) : p = q := by
  by_contra hne
  rcases beforeIn_total hp hq hne with hb | hb
  · have hlt : p.1 < q.1 :=
      List.pairwise_iff_forall_sublist.mp (tagFrom_fst_lt n l) hb
    exact absurd h (Nat.ne_of_lt hlt)
  · have hlt : q.1 < p.1 :=
      List.pairwise_iff_forall_sublist.mp (tagFrom_fst_lt n l) hb
    exact absurd h.symm (Nat.ne_of_lt hlt)

/-- At a pair the comparator does not tie, the ascending realised order
is exactly the flip of the descending one. -/
theorem ordAsc_iff_ordDesc_swap {f : String} {p q : Nat × JSRecord}
    (hp : sortKeyScalar f p.2 = true) (hq : sortKeyScalar f q.2 = true)
    (hcmp : cmpA f p q ≠ 0) : ordAsc f p q ↔ ordDesc f q p := by
  unfold ordAsc ordDesc
  rw [cmpA_eq_keyCmp hp hq, cmpA_eq_keyCmp hq hp] at *
  rcases hk : keyOf f p.2 with _ | s1 <;> rcases hk2 : keyOf f q.2 with _ | s2 <;>
    rw [hk, hk2] at hcmp
  · -- both keys null or missing: ascending keeps input order, descending
    -- reverses it
    simp only [keyCmp] at hcmp ⊢
    constructor
    · rintro (⟨_, habs⟩ | ⟨_, _, hij⟩)
      · exact absurd habs (by norm_num)
      · exact Or.inr (Or.inr ⟨by norm_num, by norm_num, hij⟩)
    · rintro (⟨habs, _⟩ | ⟨habs, _, _⟩ | ⟨_, _, hij⟩)
      · exact absurd habs (by norm_num)
      · exact absurd habs (by norm_num)
      · exact Or.inr ⟨by norm_num, by norm_num, hij⟩
  · simp only [keyCmp]
    constructor
    · intro _; exact Or.inl ⟨by norm_num, by norm_num⟩
    · intro _; exact Or.inl ⟨by norm_num, by norm_num⟩
  · simp only [keyCmp] at hcmp ⊢
    constructor
    · rintro (⟨habs, _⟩ | ⟨habs, _, _⟩)
      · exact absurd habs (by norm_num)
      · exact absurd habs (by norm_num)
    · rintro (⟨habs, _⟩ | ⟨habs, _, _⟩ | ⟨_, habs, _⟩)
      · exact absurd habs (by norm_num)
      · exact absurd habs (by norm_num)
      · exact absurd habs (by norm_num)
  · simp only [keyCmp] at hcmp ⊢
    rcases lt_trichotomy s1 s2 with h | h | h
    · constructor
      · intro _
        exact Or.inl ⟨(lcmp_pos_iff s2 s1).mpr h, (lcmp_neg_iff s1 s2).mpr h⟩
      · intro _
        exact Or.inl ⟨(lcmp_neg_iff s1 s2).mpr h, (lcmp_pos_iff s2 s1).mpr h⟩
    · exact absurd (lcmp_eval_eq h) hcmp
    · have h1 : lcmp s1 s2 = 1 := lcmp_eval_gt h
      have h2 : lcmp s2 s1 = -1 := lcmp_eval_lt h
      constructor
      · rintro (⟨habs, _⟩ | ⟨habs, _, _⟩)
        · rw [h1] at habs; exact absurd habs (by norm_num)
        · rw [h1] at habs; exact absurd habs (by norm_num)
      · rintro (⟨habs, _⟩ | ⟨habs, _, _⟩ | ⟨_, habs, _⟩)
        · rw [h2] at habs; exact absurd habs (by norm_num)
        · rw [h2] at habs; exact absurd habs (by norm_num)
        · rw [h1] at habs; exact absurd habs (by norm_num)

/-- Claim C5 counterexample: with two records both missing the sort
column, the descending comparator returns "after" for both orders of
the pair, so the descending sort of an already-descending-sorted
dataset swaps them back - sorting twice with the same key and flag does
not yield the identical sequence, refuting idempotence (and with it the
claimed total order). -/
theorem sort_descending_not_idempotent :
    sortedData (some "k") false (sortedData (some "k") false
        [[("id", JSValue.prim (.str "1"))], [("id", JSValue.prim (.str "2"))]]) ≠
      sortedData (some "k") false
        [[("id", JSValue.prim (.str "1"))], [("id", JSValue.prim (.str "2"))]] := by
  decide

/-- Claim C5 (amended): the table sort is deterministic and a
permutation of its input; sorting an already-sorted sequence with the
same key and the ascending flag yields the identical sequence; the sort
of the position-tagged dataset projects onto the untagged sort (the
model sort is stable); and for sanitized datasets (sort-column values
are strings, null, or missing), toggling the ascending flag exactly
reverses the relative order of every pair the comparator does not tie.
Descending idempotence fails when two records both have null or missing
sort keys, as the counterexample shows. -/
theorem sort_idempotent_and_reversal :
    (∀ (field : Option String) (rows : List JSRecord),
      sortedData field true (sortedData field true rows) =
        sortedData field true rows) ∧
    (∀ (field : Option String) (asc : Bool) (rows : List JSRecord),
      (sortedData field asc rows).Perm rows) ∧
    (∀ (f : String) (asc : Bool) (rows : List JSRecord),
      (stableSort (fun a b => sortCompare (some f) asc a.2 b.2 ≤ 0)
          (tagFrom 0 rows)).map Prod.snd = sortedData (some f) asc rows) ∧
    (∀ (f : String) (rows : List JSRecord),
      (∀ r ∈ rows, sortKeyScalar f r = true) →
      ∀ p q, p ∈ tagFrom 0 rows → q ∈ tagFrom 0 rows → cmpA f p q ≠ 0 →
        (beforeIn (stableSort (fun a b => sortCompare (some f) true a.2 b.2 ≤ 0)
            (tagFrom 0 rows)) p q ↔
          beforeIn (stableSort (fun a b => sortCompare (some f) false a.2 b.2 ≤ 0)
            (tagFrom 0 rows)) q p)) := by
  refine ⟨?_, ?_, ?_, ?_⟩
  · intro field rows
    exact stableSort_eq_of_chain' (chain'_stableSort (sortLe_total field) rows)
  · intro field asc rows
    exact stableSort_perm _ rows
  · intro f asc rows
    have h := stableSort_map_snd
      (fun a b => decide (sortCompare (some f) asc a b ≤ 0)) (tagFrom 0 rows)
    rw [tagFrom_map_snd] at h
    exact h
  · intro f rows hs p q hp hq hcmp
    have hpermA := stableSort_perm
      (fun a b => decide (sortCompare (some f) true a.2 b.2 ≤ 0)) (tagFrom 0 rows)
    have hpermD := stableSort_perm
      (fun a b => decide (sortCompare (some f) false a.2 b.2 ≤ 0)) (tagFrom 0 rows)
    have hndA := (hpermA.nodup_iff).mpr (tagFrom_nodup 0 rows)
    have hndD := (hpermD.nodup_iff).mpr (tagFrom_nodup 0 rows)
    have hpA := pairwise_ordAsc f rows hs
    have hpD := pairwise_ordDesc f rows hs
    have hps : sortKeyScalar f p.2 = true := hs _ (mem_tagFrom_snd hp)
    have hqs : sortKeyScalar f q.2 = true := hs _ (mem_tagFrom_snd hq)
    rcases eq_or_ne p q with rfl | hne
    · constructor
      · intro hb
        exact absurd hb (not_beforeIn_self hndA)
      · intro hb
        exact absurd hb (not_beforeIn_self hndD)
    · have hA : beforeIn (stableSort
          (fun a b => decide (sortCompare (some f) true a.2 b.2 ≤ 0))
          (tagFrom 0 rows)) p q ↔ ordAsc f p q := by
        constructor
        · exact beforeIn_of_pairwise hpA
        · intro ho
          rcases beforeIn_total (hpermA.mem_iff.mpr hp) (hpermA.mem_iff.mpr hq)
            hne with hb | hb
          · exact hb
          · exact (ordAsc_antisymm ho (beforeIn_of_pairwise hpA hb)).elim
      have hD : beforeIn (stableSort
          (fun a b => decide (sortCompare (some f) false a.2 b.2 ≤ 0))
          (tagFrom 0 rows)) q p ↔ ordDesc f q p := by
        constructor
        · exact beforeIn_of_pairwise hpD
        · intro ho
          rcases beforeIn_total (hpermD.mem_iff.mpr hq) (hpermD.mem_iff.mpr hp)
            hne.symm with hb | hb
          · exact hb
          · exact (ordDesc_antisymm ho (beforeIn_of_pairwise hpD hb)).elim
      rw [hA, hD]
      exact ordAsc_iff_ordDesc_swap hps hqs hcmp

theorem sort_idempotent_and_reversal_witness :
    (∀ r ∈ ([[("k", JSValue.prim (.str "b"))], [("k", JSValue.prim (.str "a"))]] :
        List JSRecord), sortKeyScalar "k" r = true) ∧
    (sortedData (some "k") true (sortedData (some "k") true
        [[("k", JSValue.prim (.str "b"))], [("k", JSValue.prim (.str "a"))]]) =
      sortedData (some "k") true
        [[("k", JSValue.prim (.str "b"))], [("k", JSValue.prim (.str "a"))]]) ∧
    (∀ p q, p ∈ tagFrom 0 [[("k", JSValue.prim (.str "b"))],
          [("k", JSValue.prim (.str "a"))]] →
      q ∈ tagFrom 0 [[("k", JSValue.prim (.str "b"))],
          [("k", JSValue.prim (.str "a"))]] →
      cmpA "k" p q ≠ 0 →
        (beforeIn (stableSort
            (fun a b => sortCompare (some "k") true a.2 b.2 ≤ 0)
            (tagFrom 0 [[("k", JSValue.prim (.str "b"))],
              [("k", JSValue.prim (.str "a"))]])) p q ↔
          beforeIn (stableSort
            (fun a b => sortCompare (some "k") false a.2 b.2 ≤ 0)
            (tagFrom 0 [[("k", JSValue.prim (.str "b"))],
              [("k", JSValue.prim (.str "a"))]])) q p)) := by
  refine ⟨by decide, ?_, ?_⟩
  · exact sort_idempotent_and_reversal.1 (some "k")
      [[("k", JSValue.prim (.str "b"))], [("k", JSValue.prim (.str "a"))]]
  · exact sort_idempotent_and_reversal.2.2.2 "k"
      [[("k", JSValue.prim (.str "b"))], [("k", JSValue.prim (.str "a"))]]
      (by decide)

end Sustainity
